import Mathlib

/-!
Verification development for the HRU Modbus-TCP simulator
(`tools/atrea_sim_ha.py`).

The Python program is shallowly embedded as follows.

* Register and coil stores are total maps `Int → Int` / `Int → Bool` with
  default `0` / `false`; this matches the pervasive `dict.get(addr, 0)` /
  `dict.get(addr, False)` access pattern of the source.  Addresses that a
  client can make dirty are always present in the Python dict (every
  `dirty_registers.add` is paired with a store), so the one bare
  `registers.get(addr)` (default `None`) in `check_writes` coincides with
  the total-map reading on all states reachable through the protocol.
* Python floats are modelled as exact rationals (`ℚ`); float literals such
  as `0.01`, `0.1` and `0.5` of the physics loop become `1/100`, `1/10`,
  `1/2`.
* The dynamically typed values flowing through the DSL interpreter are the
  tagged variant `Value` (int / float / str / bool / None), so that the
  int-vs-float distinctions that the source's `0x{result:04x}` debug
  formatting depends on are preserved.
* Code that can raise a Python exception is `Except Unit` / `Option`
  valued; `.error ()` / `none` means the exception propagates to the
  caller (no caller in this file catches it).
* The dirty set is an insertion-ordered duplicate-free list; the Python
  `set` has unspecified iteration order, which none of the proved
  properties depend on.
* The unit definition (external JSON) is the AST `Expr`/`Stmt`/`UnitDef`
  of the documented schema: statements are assignments or actions, and
  expressions are numeric literals, string literals or function-call
  nodes.  Dictionary register keys that are not equal to an integer
  (non-integral floats, strings) are unreachable from the integer-keyed
  reads the simulator performs and are not modelled (`asKey`).
-/

/-- One update of a (total or partial) map, i.e. a Python `d[k] = v`. -/
def updMap {α β : Type} [DecidableEq α] (f : α → β) (k : α) (v : β) : α → β :=
  fun a => if a = k then v else f a

@[simp] theorem updMap_same {α β : Type} [DecidableEq α] (f : α → β) (k : α) (v : β) :
    updMap f k v k = v := by simp [updMap]

@[simp] theorem updMap_ne {α β : Type} [DecidableEq α] (f : α → β) (k : α) (v : β)
    (a : α) (h : a ≠ k) : updMap f k v a = f a := by simp [updMap, h]

/-- A Python runtime value as it flows through the DSL interpreter:
`int`, `float` (exact rational), `str`, `bool`, or `None`. -/
inductive Value where
  | int (n : Int)
  | float (q : ℚ)
  | str (s : String)
  | bool (b : Bool)
  | none

/-- An expression tree of the unit-definition schema: a numeric literal
(JSON int or float), a string literal, or a function-call node
`\x7bfunction, args\x7d`. -/
inductive Expr where
  | intLit (n : Int)
  | floatLit (q : ℚ)
  | strLit (s : String)
  | call (function : String) (args : List Expr)

/-- A statement of a unit read/write script: an assignment
`\x7btype: assignment, variable, value\x7d` or an action
`\x7btype: action, expression: \x7bfunction, args\x7d\x7d`. -/
inductive Stmt where
  | assignment (var : String) (value : Expr)
  | action (function : String) (args : List Expr)

mutual

/-- Structural equality of expression trees; this is the Python `==` / `!=`
value comparison of the underlying JSON dictionaries. -/
def exprBeq : Expr → Expr → Bool
  | .intLit a, .intLit b => a == b
  | .floatLit a, .floatLit b => a == b
  | .strLit a, .strLit b => a == b
  | .call f a, .call g b => f == g && exprBeqList a b
  | _, _ => false

/-- Structural equality of lists of expression trees. -/
def exprBeqList : List Expr → List Expr → Bool
  | [], [] => true
  | x :: xs, y :: ys => exprBeq x y && exprBeqList xs ys
  | _, _ => false

end

/-- Structural (Python value) equality of statements. -/
def stmtBeq : Stmt → Stmt → Bool
  | .assignment v1 e1, .assignment v2 e2 => v1 == v2 && exprBeq e1 e2
  | .action f1 a1, .action f2 a2 => f1 == f2 && exprBeqList a1 a2
  | _, _ => false

/-- Value of one hexadecimal digit character. -/
def hexDigitVal (c : Char) : Option Nat :=
  if '0' ≤ c ∧ c ≤ '9' then some (c.toNat - 48)
  else if 'a' ≤ c ∧ c ≤ 'f' then some (c.toNat - 87)
  else if 'A' ≤ c ∧ c ≤ 'F' then some (c.toNat - 55)
  else none

/-- Accumulate hex digits left to right; `none` on a non-digit. -/
def hexDigitsVal : List Char → Nat → Option Nat
  | [], acc => some acc
  | c :: rest, acc =>
    match hexDigitVal c with
    | some d => hexDigitsVal rest (acc * 16 + d)
    | none => none

/-- Python `int(s, 16)` for a string with a `0x` / `0X` prefix:
the digits after the prefix, `none` (a raised `ValueError`) if empty or
invalid. -/
def parseHex (s : String) : Option Int :=
  let digits := (s.toList).drop 2
  if digits = [] then none
  else (hexDigitsVal digits 0).map Int.ofNat

/-- Accumulate decimal digits left to right; `none` on a non-digit. -/
def decDigitsVal : List Char → Nat → Option Nat
  | [], acc => some acc
  | c :: rest, acc =>
    if '0' ≤ c ∧ c ≤ '9' then decDigitsVal rest (acc * 10 + (c.toNat - 48))
    else none

/-- Python `int(s)` for a decimal string (optional sign), `none` (a raised
`ValueError`) otherwise. -/
def parseDec (s : String) : Option Int :=
  match s.toList with
  | [] => none
  | '-' :: rest => if rest = [] then none else (decDigitsVal rest 0).map (fun n => -(n : Int))
  | l => if l.head? = some '-' then none else
      if l = [] then none else (decDigitsVal l 0).map Int.ofNat

/-- Whether the first list is an initial run of the second. -/
def leadChars : List Char → List Char → Bool
  | [], _ => true
  | _ :: _, [] => false
  | p :: ps, c :: cs => p == c && leadChars ps cs

/-- Python `s.startswith(pre)` (computed on the character lists). -/
def pyStartsWith (s pre : String) : Bool := leadChars pre.toList s.toList

/-- Python truthiness of `v != 0` being false, i.e. `v == 0`:
numeric zero and `False` compare equal to `0`; strings and `None` do not. -/
def valueEqZero : Value → Bool
  | .int n => n == 0
  | .float q => q == 0
  | .bool b => !b
  | _ => false

/-- Python `bool(v)`. -/
def pyBool : Value → Bool
  | .int n => n != 0
  | .float q => q != 0
  | .str s => s ≠ ""
  | .bool b => b
  | .none => false

/-- Python `int(v)`: identity on ints, 0/1 on bools, truncation toward zero
on floats, decimal parse on strings; `none` models the raised
`TypeError`/`ValueError` otherwise. -/
def pyInt : Value → Option Int
  | .int n => some n
  | .bool b => some (if b then 1 else 0)
  | .float q => some (q.num / (q.den : Int))
  | .str s => parseDec s
  | .none => Option.none

/-- A `Value` as a rational number, when it is numeric (Python numeric
coercion: `bool` counts as 0/1). -/
def ratOf : Value → Option ℚ
  | .int n => some (n : ℚ)
  | .float q => some q
  | .bool b => some (if b then 1 else 0)
  | _ => Option.none

/-- A `Value` used as a register-dictionary key, reduced to the integer it
hashes equal to (`5`, `5.0` and `True ~ 1` are the same Python dict key).
Keys not equal to any integer are not modelled; see the header note. -/
def asKey : Value → Option Int
  | .int n => some n
  | .bool b => some (if b then 1 else 0)
  | .float q => if q.den = 1 then some q.num else Option.none
  | _ => Option.none

/-- Python string repetition `s * n` (empty for `n ≤ 0`). -/
def strRep (n : Int) (s : String) : String :=
  String.join (List.replicate n.toNat s)

/-- Python multiplication on DSL values; `none` models the raised
`TypeError` (e.g. `None * x`, `str * str`). -/
def pyMul : Value → Value → Option Value
  | .int a, .int b => some (.int (a * b))
  | .int a, .float b => some (.float ((a : ℚ) * b))
  | .int a, .bool b => some (.int (a * (if b then 1 else 0)))
  | .int n, .str s => some (.str (strRep n s))
  | .float a, .int b => some (.float (a * (b : ℚ)))
  | .float a, .float b => some (.float (a * b))
  | .float a, .bool b => some (.float (a * (if b then 1 else 0)))
  | .bool a, .int b => some (.int ((if a then 1 else 0) * b))
  | .bool a, .float b => some (.float ((if a then 1 else 0) * b))
  | .bool a, .bool b => some (.int ((if a then 1 else 0) * (if b then 1 else 0)))
  | .bool b, .str s => some (.str (strRep (if b then 1 else 0) s))
  | .str s, .int n => some (.str (strRep n s))
  | .str s, .bool b => some (.str (strRep (if b then 1 else 0) s))
  | _, _ => Option.none

/-- Python true division `a / b` for a non-zero `b`: always a float on
numerics; `none` models the raised `TypeError` on non-numerics. -/
def pyDiv (a b : Value) : Option Value :=
  match ratOf a, ratOf b with
  | some x, some y => some (.float (x / y))
  | _, _ => Option.none

/-- Python `round` (banker's rounding, half to even). -/
def roundHalfEven (q : ℚ) : Int :=
  let f := ⌊q⌋
  let r := q - (f : ℚ)
  if r < 1/2 then f
  else if (1 : ℚ)/2 < r then f + 1
  else if Even f then f else f + 1

/-- Python `round(v)`; `none` models the raised `TypeError` on
non-numerics. -/
def pyRound : Value → Option Value
  | .int n => some (.int n)
  | .bool b => some (.int (if b then 1 else 0))
  | .float q => some (.int (roundHalfEven q))
  | _ => Option.none

/-- Whether `f-string` formatting with the `04x` format code succeeds for a
value: it does for `int` and `bool`; a `float`, `str` or `None` result
raises `ValueError`/`TypeError`. -/
def formatHexOk : Value → Bool
  | .int _ => true
  | .bool _ => true
  | _ => false

/-- The keys of the `operations` dispatch table of `HruSimDSL.eval_expr`. -/
def opNames : List String :=
  ["modbus_read_holding", "modbus_read_input", "exclude_modbus_read_coil",
   "multiply", "divide", "bit_and", "bit_or", "bit_lshift", "bit_rshift",
   "round", "non_zero"]

/-- A binary operation on `int(a[0])`, `int(a[1])` (the bitwise entries of
the table); fails on missing arguments, unconvertible operands, or when
the operation itself fails (negative shift count). -/
def binIntOp (op : Int → Int → Option Int) (a : List Value) : Except Unit Value :=
  match a with
  | x :: y :: _ =>
    match pyInt x, pyInt y with
    | some n, some m =>
      match op n m with
      | some r => .ok (.int r)
      | Option.none => .error ()
    | _, _ => .error ()
  | _ => .error ()

/-- One entry of the `operations` table of `eval_expr`, applied to the
already-evaluated argument list (`f` is known to be a table key). -/
def applyOp (regs : Int → Int) (f : String) (a : List Value) : Except Unit Value :=
  if f = "modbus_read_holding" ∨ f = "modbus_read_input" then
    match a.head? with
    | Option.none => .error ()
    | some k =>
      match asKey k with
      | some n => .ok (.int (regs n))
      | Option.none => .ok (.int 0)
  else if f = "exclude_modbus_read_coil" then .ok .none
  else if f = "multiply" then
    match a with
    | x :: y :: _ =>
      match pyMul x y with
      | some v => .ok v
      | Option.none => .error ()
    | _ => .error ()
  else if f = "divide" then
    match a with
    | x :: y :: _ =>
      if valueEqZero y then .ok (.int 0)
      else
        match pyDiv x y with
        | some v => .ok v
        | Option.none => .error ()
    | _ => .error ()
  else if f = "bit_and" then binIntOp (fun x y => some (Int.land x y)) a
  else if f = "bit_or" then binIntOp (fun x y => some (Int.lor x y)) a
  else if f = "bit_lshift" then
    binIntOp (fun x y => if y < 0 then Option.none else some (x * 2 ^ y.toNat)) a
  else if f = "bit_rshift" then
    binIntOp (fun x y => if y < 0 then Option.none else some (Int.fdiv x (2 ^ y.toNat))) a
  else if f = "round" then
    match a.head? with
    | some x =>
      match pyRound x with
      | some v => .ok v
      | Option.none => .error ()
    | Option.none => .error ()
  else if f = "non_zero" then
    match a.head? with
    | some x => .ok (.bool (pyBool x))
    | Option.none => .error ()
  else .ok .none

mutual

/-- `HruSimDSL.eval_expr`: literals evaluate to themselves, `$`-strings read
the variable table (default `0`), `0x`/`0X` strings parse as hex integers,
other strings are returned verbatim, and call nodes evaluate their
arguments and dispatch through the `operations` table, after which the
result is interpolated into the `0x\x7bresult:04x\x7d` debug print —
which raises (`.error`) for any non-int result.  Unknown functions
return `0` without printing. -/
def eval_expr (regs : Int → Int) (vars : String → Option Value) : Expr → Except Unit Value
  | .intLit n => .ok (.int n)
  | .floatLit q => .ok (.float q)
  | .strLit s =>
    if pyStartsWith s "$" then .ok ((vars s).getD (.int 0))
    else if pyStartsWith s "0x" ∨ pyStartsWith s "0X" then
      match parseHex s with
      | some n => .ok (.int n)
      | Option.none => .error ()
    else .ok (.str s)
  | .call f args =>
    match evalArgs regs vars args with
    | .error e => .error e
    | .ok a =>
      if f ∈ opNames then
        match applyOp regs f a with
        | .error e => .error e
        | .ok r => if formatHexOk r then .ok r else .error ()
      else .ok (.int 0)

/-- Left-to-right evaluation of an argument list
(`[self.eval_expr(arg) for arg in expr.get("args", [])]`), propagating the
first raised exception. -/
def evalArgs (regs : Int → Int) (vars : String → Option Value) : List Expr → Except Unit (List Value)
  | [] => .ok []
  | e :: rest =>
    match eval_expr regs vars e with
    | .error err => .error err
    | .ok v =>
      match evalArgs regs vars rest with
      | .error err => .error err
      | .ok vs => .ok (v :: vs)

end

/-- `HruSimDSL._mirror_frontpanel`: a write to the packed front-panel
register `0x9C40` unpacks power (bits 9-6), boost (bit 4), bypass (bit 2)
and stores each, with its `_target` twin, in the variable table. -/
def mirror_frontpanel (vars : String → Option Value) (addr : Int) (val : Int) :
    String → Option Value :=
  if addr ≠ 40000 then vars
  else
    let power := Int.land (Int.fdiv val (2 ^ 6)) 15
    let boost : Int := if Int.land val 16 ≠ 0 then 1 else 0
    let bypass : Int := if Int.land val 4 ≠ 0 then 1 else 0
    let vars1 := updMap (updMap vars "$power" (some (.int power))) "$power_target" (some (.int power))
    let vars2 := updMap (updMap vars1 "$boost" (some (.int boost))) "$boost_target" (some (.int boost))
    updMap (updMap vars2 "$bypass" (some (.int bypass))) "$bypass_target" (some (.int bypass))

/-- The mutable state owned by `HruSimDSL`: the register file, the coils and
the variable table (all shared with the surrounding simulator). -/
structure DslState where
  registers : Int → Int
  coils : Int → Bool
  vars : String → Option Value

/-- Write a block of registers (`modbus_write_holding_multi` loop body):
store each value, mirroring the front-panel register on every write. -/
def writeHoldingMulti (st : DslState) (base : Int) : List Int → DslState
  | [] => st
  | v :: rest =>
    let st1 : DslState :=
      { st with registers := updMap st.registers base v,
                vars := mirror_frontpanel st.vars base v }
    writeHoldingMulti st1 (base + 1) rest

/-- Convert the already-evaluated tail arguments of
`modbus_write_holding_multi` with `int(v)`; `none` propagates a raised
conversion error. -/
def pyIntList : List Value → Option (List Int)
  | [] => some []
  | v :: rest =>
    match pyInt v with
    | some n => (pyIntList rest).map (fun l => n :: l)
    | Option.none => Option.none

/-- One statement of `HruSimDSL.execute_script`.  An assignment stores the
evaluated value and then debug-prints it with `0x\x7bval:04x\x7d`
(raising on non-int values); an action dispatches on the function name,
with `modbus_write_holding` also mirroring the front-panel register.
Unknown action functions are no-ops. -/
def execute_stmt (st : DslState) : Stmt → Except Unit DslState
  | .assignment var value =>
    match eval_expr st.registers st.vars value with
    | .error e => .error e
    | .ok v =>
      let st1 : DslState := { st with vars := updMap st.vars var (some v) }
      if formatHexOk v then .ok st1 else .error ()
  | .action f args =>
    match evalArgs st.registers st.vars args with
    | .error e => .error e
    | .ok a =>
      if f = "modbus_write_holding" then
        match a with
        | addrv :: valv :: _ =>
          match pyInt valv with
          | some val =>
            match asKey addrv with
            | some k =>
              .ok { st with registers := updMap st.registers k val,
                            vars := mirror_frontpanel st.vars k val }
            | Option.none => .ok st
          | Option.none => .error ()
        | _ => .error ()
      else if f = "modbus_write_coil" then
        match a with
        | addrv :: valv :: _ =>
          match asKey addrv with
          | some k => .ok { st with coils := updMap st.coils k (pyBool valv) }
          | Option.none => .ok st
        | _ => .error ()
      else if f = "modbus_write_holding_multi" then
        match a with
        | [] => .ok st
        | a0 :: rest =>
          match pyInt a0 with
          | some base =>
            match pyIntList rest with
            | some vals =>
              .ok (writeHoldingMulti st base (if vals = [] then [0] else vals))
            | Option.none => .error ()
          | Option.none => .error ()
      else .ok st

/-- `HruSimDSL.execute_script`: run the statements in order, propagating the
first raised exception. -/
def execute_script (st : DslState) : List Stmt → Except Unit DslState
  | [] => .ok st
  | s :: rest =>
    match execute_stmt st s with
    | .error e => .error e
    | .ok st1 => execute_script st1 rest

/-- The unit definition as consumed by the simulator core: the resolved
`read` and `write` statement sequences of its `integration` / legacy
`interface` object (loaded once at startup, immutable afterwards). -/
structure UnitDef where
  readScript : List Stmt
  writeScript : List Stmt

/-- The mutable state owned by `HruSimulator`: registers, coils, the
internal variable table (floats), and the dirty-address set (modelled as
an insertion-ordered duplicate-free list). -/
structure SimState where
  registers : Int → Int
  coils : Int → Bool
  internal : String → Option ℚ
  dirty : List Int

/-- `HruSimulator._resolve_addr`: ints resolve to themselves, `0x`-prefixed
strings parse as hex, anything else goes through `int(...)` (decimal
parse for strings, truncation for floats, a raised `TypeError` — `none` —
for call nodes). -/
def resolve_addr : Expr → Option Int
  | .intLit n => some n
  | .strLit s => if pyStartsWith s "0x" then parseHex s else parseDec s
  | .floatLit q => some (q.num / (q.den : Int))
  | .call _ _ => Option.none

/-- Python `d[k] = v` on an insertion-ordered association list: replace the
value in place when the key exists, append otherwise. -/
def dictUpsert : List (Int × String) → Int → String → List (Int × String)
  | [], k, v => [(k, v)]
  | p :: rest, k, v => if p.1 = k then (k, v) :: rest else p :: dictUpsert rest k v

/-- Python `d.get(k)` / `k in d` on an association list. -/
def alLookup : List (Int × String) → Int → Option String
  | [], _ => Option.none
  | p :: rest, k => if p.1 = k then some p.2 else alLookup rest k

mutual

/-- `HruSimulator._collect_addresses_from_expr`: walk a read-script
expression; a read-function node records its resolved first argument as
mapping to `varName` (skipping the front-panel address `0x9C40`), the
listed arithmetic functions recurse into their call-node arguments. -/
def collect_addresses_from_expr (e : Expr) (varName : String)
    (acc : List (Int × String)) : Option (List (Int × String)) :=
  match e with
  | .call f args =>
    if f = "modbus_read_holding" ∨ f = "modbus_read_input" then
      match args.head? with
      | Option.none => Option.none
      | some a0 =>
        match resolve_addr a0 with
        | Option.none => Option.none
        | some addr =>
          if addr = 40000 then some acc
          else some (dictUpsert acc addr varName)
    else if f = "multiply" ∨ f = "divide" ∨ f = "bit_and" ∨ f = "bit_or" ∨
            f = "bit_rshift" ∨ f = "bit_lshift" ∨ f = "non_zero" then
      collectArgs args varName acc
    else some acc
  | .intLit _ => some acc
  | .floatLit _ => some acc
  | .strLit _ => some acc

/-- The `for arg in expr.get("args", [])` recursion of
`_collect_addresses_from_expr`: only dict (call-node) arguments recurse. -/
def collectArgs (l : List Expr) (varName : String) (acc : List (Int × String)) :
    Option (List (Int × String)) :=
  match l with
  | [] => some acc
  | a :: rest =>
    match a with
    | .call f args =>
      match collect_addresses_from_expr (.call f args) varName acc with
      | Option.none => Option.none
      | some acc1 => collectArgs rest varName acc1
    | .intLit _ => collectArgs rest varName acc
    | .floatLit _ => collectArgs rest varName acc
    | .strLit _ => collectArgs rest varName acc

end

/-- The statement loop of `HruSimulator._extract_read_addresses`:
assignments with a truthy (non-empty) variable name contribute their
value expression's read addresses. -/
def extractLoop : List Stmt → List (Int × String) → Option (List (Int × String))
  | [], acc => some acc
  | .assignment varName value :: rest, acc =>
    if varName = "" then extractLoop rest acc
    else
      match collect_addresses_from_expr value varName acc with
      | Option.none => Option.none
      | some acc1 => extractLoop rest acc1
  | .action _ _ :: rest, acc => extractLoop rest acc

/-- `HruSimulator._extract_read_addresses`: the address → variable reverse
map built from the unit's read script. -/
def extract_read_addresses (u : UnitDef) : Option (List (Int × String)) :=
  extractLoop u.readScript []

/-- Resolve the first argument of each filtered control statement
(`_resolve_addr(s.get("expression", \x7b\x7d).get("args", [0])[0])`). -/
def resolveCtrls : List Stmt → Option (List Int)
  | [] => some []
  | .action _ args :: rest =>
    match args.head? with
    | Option.none => Option.none
    | some a0 =>
      match resolve_addr a0 with
      | Option.none => Option.none
      | some n => (resolveCtrls rest).map (fun l => n :: l)
  | .assignment _ _ :: rest => resolveCtrls rest

/-- The `ctrl_addrs` list of the trigger branch of `check_writes`: the
resolved first arguments of every `modbus_write_holding` action of the
write script other than (by Python value comparison) `stmt` itself. -/
def ctrlAddrs (ws : List Stmt) (stmt : Stmt) : Option (List Int) :=
  resolveCtrls (ws.filter fun s =>
    (match s with | .action f _ => f == "modbus_write_holding" | _ => false)
      && !(stmtBeq s stmt))

/-- The `for reg_addr, var_name in addr_to_var.items(): if reg_addr == addr`
loop of the trigger branch: set the matching variable's `_target` to the
raw register value, then overwrite it with the value divided by 10 when
the variable is `$temperature`. -/
def applyTargets (atv : List (Int × String)) (addr raw : Int)
    (internal : String → Option ℚ) : String → Option ℚ :=
  match atv with
  | [] => internal
  | (regAddr, varName) :: rest =>
    let internal1 :=
      if regAddr = addr then
        let i1 := updMap internal (varName ++ "_target") (some ((raw : ℚ)))
        if varName = "$temperature" then
          updMap i1 (varName ++ "_target") (some ((raw : ℚ) / 10))
        else i1
      else internal
    applyTargets rest addr raw internal1

/-- One statement of the trigger (delay-marked) branch of `check_writes`:
a `modbus_write_holding` action whose resolved address is not the
front-panel register and is dirty updates the reverse-mapped `_target`,
unless the address is the first other control address and its register
reads zero. -/
def triggerStep (ws : List Stmt) (regs : Int → Int) (dirty : List Int)
    (atv : List (Int × String)) (internal : String → Option ℚ) (stmt : Stmt) :
    Option (String → Option ℚ) :=
  match stmt with
  | .action f args =>
    if f = "modbus_write_holding" then
      match args.head? with
      | Option.none => Option.none
      | some a0 =>
        match resolve_addr a0 with
        | Option.none => Option.none
        | some addr =>
          if addr = 40000 then some internal
          else if addr ∈ dirty then
            match ctrlAddrs ws stmt with
            | Option.none => Option.none
            | some ctrl =>
              if addr ∈ ctrl.take 1 ∧ regs addr = 0 then some internal
              else some (applyTargets atv addr (regs addr) internal)
          else some internal
    else some internal
  | .assignment _ _ => some internal

/-- The statement loop of the trigger branch of `check_writes`. -/
def triggerLoop (ws : List Stmt) (regs : Int → Int) (dirty : List Int)
    (atv : List (Int × String)) :
    (String → Option ℚ) → List Stmt → Option (String → Option ℚ)
  | internal, [] => some internal
  | internal, s :: rest =>
    match triggerStep ws regs dirty atv internal s with
    | Option.none => Option.none
    | some internal1 => triggerLoop ws regs dirty atv internal1 rest

/-- The direct (no delay marker) branch of `check_writes`: every dirty
address with a reverse mapping sets both the variable and its `_target`
to the raw register value. -/
def directLoop (regs : Int → Int) (atv : List (Int × String)) :
    (String → Option ℚ) → List Int → (String → Option ℚ)
  | internal, [] => internal
  | internal, a :: rest =>
    match alLookup atv a with
    | some varName =>
      let val : ℚ := (regs a : ℚ)
      directLoop regs atv
        (updMap (updMap internal varName (some val)) (varName ++ "_target") (some val)) rest
    | Option.none => directLoop regs atv internal rest

/-- The hard-coded mirror table `\x7b10708: 10704, 10710: 10706,
10709: 10705\x7d` in its Python dict-literal iteration order. -/
def mirror_map_sim : List (Int × Int) := [(10708, 10704), (10710, 10706), (10709, 10705)]

/-- The mirror pass at the end of `check_writes`: every mirror source still
dirty copies its register value into the destination and, when the
destination is reverse-mapped, updates the destination's variable
(divided by 10 for `$temperature`). -/
def mirrorLoop (atv : List (Int × String)) (dirty : List Int) :
    (Int → Int) → (String → Option ℚ) → List (Int × Int) →
    (Int → Int) × (String → Option ℚ)
  | regs, internal, [] => (regs, internal)
  | regs, internal, (src, dest) :: rest =>
    if src ∈ dirty then
      let val := regs src
      let regs1 := updMap regs dest val
      let internal1 :=
        match alLookup atv dest with
        | some destVar =>
          updMap internal destVar
            (some (if destVar ≠ "$temperature" then (val : ℚ) else (val : ℚ) / 10))
        | Option.none => internal
      mirrorLoop atv dirty regs1 internal1 rest
    else mirrorLoop atv dirty regs internal rest

/-- The `has_delay` scan of `check_writes`: does any action of the write
script call the `delay` marker function. -/
def hasDelayMarker (ws : List Stmt) : Bool :=
  ws.any fun s => match s with | .action f _ => f == "delay" | _ => false

/-- `HruSimulator.check_writes`, one reconciliation pass: an early return
when nothing is dirty; an early drain when the unit has no scripts;
otherwise the mode chosen by the delay marker, then the mirror pass, then
the unconditional drain.  `none` models a raised exception (malformed
addresses in the scripts), which propagates out of the pass. -/
def check_writes (u : UnitDef) (s : SimState) : Option SimState :=
  if s.dirty = [] then some s
  else if u.readScript.isEmpty ∧ u.writeScript.isEmpty then some { s with dirty := [] }
  else
    match extract_read_addresses u with
    | Option.none => Option.none
    | some atv =>
      match (if hasDelayMarker u.writeScript then
               triggerLoop u.writeScript s.registers s.dirty atv s.internal u.writeScript
             else some (directLoop s.registers atv s.internal s.dirty)) with
      | Option.none => Option.none
      | some internal1 =>
        let rm := mirrorLoop atv s.dirty s.registers internal1 mirror_map_sim
        some { registers := rm.1, coils := s.coils, internal := rm.2, dirty := [] }

/-- The per-variable convergence step of `HruSimulator.physics_loop`: when
the variable exists and is more than `0.01` from its target, move it one
step (`0.5` for `$power`, `0.1` otherwise) toward the target, clamped at
the target. -/
def physics_var_step (internal : String → Option ℚ) (varName : String) :
    String → Option ℚ :=
  if (internal varName).isSome then
    let target := (internal (varName ++ "_target")).getD 0
    let current := (internal varName).getD 0
    if |current - target| > 1/100 then
      let step : ℚ := if varName = "$power" then 1/2 else 1/10
      updMap internal varName
        (some (if target > current then min target (current + step)
               else max target (current - step)))
    else internal
  else internal

/-- The `for var in ["$power", "$temperature"]` convergence loop of one
physics tick. -/
def physics_vars_tick (internal : String → Option ℚ) : String → Option ℚ :=
  physics_var_step (physics_var_step internal "$power") "$temperature"

/-- The register mutation shared by the FC6 handler and each iteration of
the FC16 handler: store the value, mark the address dirty, and
immediately mirror it when the address is a mirror source. -/
def reg_write_with_mirror (s : SimState) (addr val : Int) : SimState :=
  let regs1 := updMap s.registers addr val
  let dirty1 := if addr ∈ s.dirty then s.dirty else s.dirty ++ [addr]
  match mirror_map_sim.find? (fun p => p.1 == addr) with
  | some p =>
    { registers := updMap regs1 p.2 val, coils := s.coils,
      internal := s.internal, dirty := dirty1 }
  | Option.none =>
    { registers := regs1, coils := s.coils, internal := s.internal, dirty := dirty1 }

/-- The FC6 (Write Single Register) handler's state change. -/
def fc6_write (s : SimState) (addr val : Int) : SimState :=
  reg_write_with_mirror s addr val

/-- The FC16 (Write Multiple Registers) handler's state change: the values
are written to consecutive addresses in order, each write mirrored
immediately. -/
def fc16_write : SimState → Int → List Int → SimState
  | s, _, [] => s
  | s, start, v :: rest => fc16_write (reg_write_with_mirror s start v) (start + 1) rest

/-- `struct.pack('>H', int(v) & 0xFFFF)` for each value: mask to 16 bits and
emit the two big-endian bytes. -/
def be16_bytes : List Int → List Nat
  | [] => []
  | v :: rest => ((v % 65536).toNat / 256) :: ((v % 65536).toNat % 256) :: be16_bytes rest

/-- The `for i in range(count)` register collection loop of the FC3/FC4
handlers: read `count` consecutive registers starting at `start`. -/
def regReads (regs : Int → Int) (start : Int) : Nat → List Int
  | 0 => []
  | n + 1 => regs start :: regReads regs (start + 1) n

/-- The FC3 (Read Holding Registers) response payload: the byte count
(`2 * min(count, 125)`) followed by the first `min(count, 125)` register
values, each masked to 16 bits and packed big-endian. -/
def fc3_payload (s : SimState) (start : Int) (count : Nat) : List Nat :=
  let vals := regReads s.registers start count
  let actualCount := min count 125
  let byteCount := actualCount * 2
  byteCount :: be16_bytes (vals.take actualCount)

/-- The FC4 (Read Input Registers) response payload — the same layout and
the same backing store as FC3. -/
def fc4_payload (s : SimState) (start : Int) (count : Nat) : List Nat :=
  let vals := regReads s.registers start count
  let actualCount := min count 125
  let byteCount := actualCount * 2
  byteCount :: be16_bytes (vals.take actualCount)

/-- The bit-packing loop of the FC1 handler: set bit `bit_pos` of the
current byte for each true coil, emit a byte every 8 coils, and emit the
partially filled final byte when one remains. -/
def pack_bits : List Bool → Nat → Nat → List Nat
  | [], cur, pos => if pos > 0 then [cur] else []
  | v :: rest, cur, pos =>
    let cur1 := if v then cur ||| (1 <<< pos) else cur
    if pos + 1 = 8 then cur1 :: pack_bits rest 0 0
    else pack_bits rest cur1 (pos + 1)

/-- The `for i in range(count)` coil collection loop of the FC1 handler. -/
def coilReads (coils : Int → Bool) (start : Int) : Nat → List Bool
  | 0 => []
  | n + 1 => coils start :: coilReads coils (start + 1) n

/-- The FC1 (Read Coils) response payload: the byte count `(count + 7) / 8`
followed by the bit-packed coil values.  `none` models the
`struct.error` raised by `struct.pack('B', byte_count)` when the byte
count exceeds 255 (count > 2040), which closes the connection without a
response. -/
def fc1_payload (s : SimState) (start : Int) (count : Nat) : Option (List Nat) :=
  let vals := coilReads s.coils start count
  let byteCount := (count + 7) / 8
  if byteCount > 255 then Option.none
  else some (byteCount :: pack_bits vals 0 0)

/-- The FC5 (Write Single Coil) handler's state change: the coil becomes on
exactly when the value is `0xFF00`. -/
def fc5_write (s : SimState) (addr val : Int) : SimState :=
  { s with coils := updMap s.coils addr (val == 65280) }

/-- A sequence of FC5 writes laying down an on/off pattern on consecutive
coil addresses. -/
def write_coil_pattern : SimState → Int → List Bool → SimState
  | s, _, [] => s
  | s, a, b :: rest =>
    write_coil_pattern (fc5_write s a (if b then 65280 else 0)) (a + 1) rest

/-- The initial simulator state built by `HruSimulator.__init__`:
all registers 0 except the two seeded ambient temperatures, no coils, the
four seeded internal variables, nothing dirty. -/
def init_state : SimState :=
  { registers := fun a => if a = 10300 then 120 else if a = 10301 then 220 else 0
  , coils := fun _ => false
  , internal := fun k =>
      if k = "$power" then some 0
      else if k = "$temperature" then some (45/2)
      else if k = "$mode" then some 2
      else if k = "$rawTemp" then some 225
      else Option.none
  , dirty := [] }


theorem regReads_length (regs : Int → Int) : ∀ (n : Nat) (start : Int),
    (regReads regs start n).length = n := by
  intro n
  induction n with
  | zero => intro start; simp [regReads]
  | succ m ih => intro start; simp [regReads, ih]

theorem regReads_getD (regs : Int → Int) : ∀ (n i : Nat) (start : Int), i < n →
    (regReads regs start n).getD i 0 = regs (start + (i : Int)) := by
  intro n
  induction n with
  | zero => intro i start h; omega
  | succ m ih =>
    intro i start h
    cases i with
    | zero => simp [regReads]
    | succ j =>
      have := ih j (start + 1) (by omega)
      simp only [regReads, List.getD_cons_succ]
      rw [this]
      congr 1
      push_cast
      ring

theorem be16_bytes_length (l : List Int) : (be16_bytes l).length = 2 * l.length := by
  induction l with
  | nil => simp [be16_bytes]
  | cons v rest ih => simp [be16_bytes, ih]; ring

theorem be16_bytes_decode (l : List Int) (i : Nat) (hi : i < l.length) :
    (be16_bytes l).getD (2 * i) 0 * 256 + (be16_bytes l).getD (2 * i + 1) 0
      = ((l.getD i 0) % 65536).toNat := by
  induction l generalizing i with
  | nil => simp at hi
  | cons v rest ih =>
    cases i with
    | zero =>
      simp only [be16_bytes, Nat.mul_zero, List.getD_cons_zero, Nat.zero_add,
        List.getD_cons_succ]
      rw [Nat.mul_comm]
      exact Nat.div_add_mod _ 256
    | succ j =>
      have hj : j < rest.length := by simpa using hi
      have h2 : 2 * (j + 1) = (2 * j + 1) + 1 := by ring
      rw [h2]
      simp only [be16_bytes, List.getD_cons_succ]
      exact ih j hj

theorem take_regReads_getD (s : SimState) (start : Int) (count : Nat) (i : Nat)
    (hi : i < min count 125) :
    ((regReads s.registers start count).take (min count 125)).getD i 0
      = s.registers (start + (i : Int)) := by
  rw [List.getD_eq_getElem?_getD, List.getElem?_take, if_pos hi,
    ← List.getD_eq_getElem?_getD]
  exact regReads_getD s.registers count i start (lt_of_lt_of_le hi (min_le_left _ _))

/-- C9: for every FC3 or FC4 request with register count `c`, the response
payload is the byte count `2 * min(c, 125)` followed by exactly
`min(c, 125)` big-endian 16-bit values, each the stored register value
reduced modulo `2^16` (for arbitrary stored integers). -/
theorem claim_C9 (s : SimState) (start : Int) (count : Nat) :
    (fc3_payload s start count).length = 1 + 2 * min count 125 ∧
    (fc3_payload s start count).head? = some (2 * min count 125) ∧
    (∀ i, i < min count 125 →
      (fc3_payload s start count).getD (2 * i + 1) 0 * 256 +
        (fc3_payload s start count).getD (2 * i + 2) 0
        = ((s.registers (start + (i : Int))) % 65536).toNat) ∧
    fc4_payload s start count = fc3_payload s start count := by
  refine ⟨?_, ?_, ?_, ?_⟩
  · simp only [fc3_payload, List.length_cons, be16_bytes_length, List.length_take,
      regReads_length]
    omega
  · simp [fc3_payload, Nat.mul_comm]
  · intro i hi
    have hlen : i < ((regReads s.registers start count).take (min count 125)).length := by
      simp only [List.length_take, regReads_length]
      omega
    have h := be16_bytes_decode _ i hlen
    rw [take_regReads_getD s start count i hi] at h
    have e2 : (2 * i + 2) = (2 * i + 1) + 1 := rfl
    simp only [fc3_payload, e2, List.getD_cons_succ]
    exact h
  · rfl

/-- C9 witness: a concrete instantiation — with register 7 holding 70000,
an FC3 read of two registers from 7 reports first value
`70000 mod 2^16 = 4464` in its big-endian byte pair. -/
theorem claim_C9_witness :
    (0 : Nat) < min 2 125 ∧
    (fc3_payload { init_state with
        registers := fun a => if a = 7 then 70000 else 0 } 7 2).getD (2 * 0 + 1) 0 * 256 +
      (fc3_payload { init_state with
        registers := fun a => if a = 7 then 70000 else 0 } 7 2).getD (2 * 0 + 2) 0 = 4464 := by
  refine ⟨by decide, ?_⟩
  have h := (claim_C9 { init_state with
      registers := fun a => if a = 7 then 70000 else 0 } 7 2).2.2.1 0 (by decide)
  simpa using h

deriving instance DecidableEq for Value

/-- An empty DSL state: zero registers, no coils, no variables. -/
def dsl0 : DslState :=
  { registers := fun _ => 0, coils := fun _ => false, vars := fun _ => Option.none }

/-- C2 counterexample: executing the DSL write of `0b000101010000 = 336` to
the front-panel register `0x9C40` yields `$boost = 1`, not `0` as the
claim states — bit 4 of `0b000101010000` is set. -/
theorem claim_C2_cex :
    (execute_script dsl0
        [.action "modbus_write_holding" [.intLit 40000, .intLit 336]]).toOption.map
      (fun st => (st.vars "$boost", st.vars "$boost_target"))
      = some (some (.int 1), some (.int 1)) ∧
    some (Value.int 1) ≠ some (Value.int 0) := by
  constructor
  · simp [execute_script, execute_stmt, evalArgs, eval_expr, opNames, pyInt, asKey,
      mirror_frontpanel, updMap, Except.toOption]
    decide
  · decide

/-- C2 (amended): a DSL write of `0b000101010000 = 336` to the packed
front-panel register `0x9C40` unpacks to power `5` (bits 9-6), boost `1`
(bit 4 is set), bypass `0` (bit 2 clear), and immediately after the write
both the current and the target Internal State entries hold the unpacked
values; the write action stores the raw value and performs exactly the
front-panel mirroring. -/
theorem claim_C2 (vars : String → Option Value) (st : DslState) :
    (mirror_frontpanel vars 40000 336) "$power" = some (.int 5) ∧
    (mirror_frontpanel vars 40000 336) "$power_target" = some (.int 5) ∧
    (mirror_frontpanel vars 40000 336) "$boost" = some (.int 1) ∧
    (mirror_frontpanel vars 40000 336) "$boost_target" = some (.int 1) ∧
    (mirror_frontpanel vars 40000 336) "$bypass" = some (.int 0) ∧
    (mirror_frontpanel vars 40000 336) "$bypass_target" = some (.int 0) ∧
    execute_script st [.action "modbus_write_holding" [.intLit 40000, .intLit 336]]
      = .ok { st with registers := updMap st.registers 40000 336,
                      vars := mirror_frontpanel st.vars 40000 336 } := by
  have hland16 : Int.land 336 16 = 16 := by decide
  have hland4 : Int.land 336 4 = 0 := by decide
  have hpow : Int.land (Int.fdiv 336 (2 ^ 6)) 15 = 5 := by decide
  refine ⟨?_, ?_, ?_, ?_, ?_, ?_, ?_⟩ <;>
    simp [mirror_frontpanel, updMap, hland16, hland4, hpow,
      execute_script, execute_stmt, evalArgs, eval_expr, opNames, pyInt, asKey] <;>
    decide


/-- C7: the evaluator degrades divide-by-zero, missing variables, missing
registers and unknown functions to `0` as the spec says — but it is not
total: a schema-conforming `divide` with a non-zero divisor produces a
Python float, and the `0x\x7bresult:04x\x7d` debug print then raises
`ValueError` (the spec's "never raises" is the evident intent; the debug
print is the slip).  The first conjunct evaluates the code at the failing
input `\x7bfunction: divide, args: [1, 2]\x7d`. -/
theorem claim_C7 :
    eval_expr (fun _ => 0) (fun _ => Option.none)
      (.call "divide" [.intLit 1, .intLit 2]) = .error () ∧
    eval_expr (fun _ => 0) (fun _ => Option.none)
      (.call "divide" [.intLit 1, .intLit 0]) = .ok (.int 0) ∧
    eval_expr (fun _ => 0) (fun _ => Option.none)
      (.strLit "$missing") = .ok (.int 0) ∧
    eval_expr (fun _ => 0) (fun _ => Option.none)
      (.call "modbus_read_holding" [.intLit 123]) = .ok (.int 0) ∧
    eval_expr (fun _ => 0) (fun _ => Option.none)
      (.call "unknown_function" []) = .ok (.int 0) := by
  have h1 : pyStartsWith "$missing" "$" = true := by decide
  refine ⟨?_, ?_, ?_, ?_, ?_⟩ <;>
    simp [eval_expr, evalArgs, applyOp, opNames, pyDiv, ratOf, valueEqZero,
      formatHexOk, asKey, h1]

/-- A representative direct-mode unit: the read script maps register 100 to
`$temperature` through a divide-by-10 (tenths) scaling, and the write
script has no `delay` marker. -/
def direct_unit : UnitDef :=
  { readScript := [.assignment "$temperature"
      (.call "divide" [.call "modbus_read_holding" [.intLit 100], .intLit 10])]
  , writeScript := [] }

/-- A state in which a client has just written the raw value 225 to
register 100. -/
def c3_state : SimState :=
  { registers := fun a => if a = 100 then 225 else 0
  , coils := fun _ => false, internal := fun _ => Option.none, dirty := [100] }

/-- C3 counterexample: in direct mode a dirty register 100 holding 225 and
reverse-mapped to the tenths-scaled `$temperature` yields
`current == target == 225.0` after the reconciliation pass, not `22.5` as
the claim states — the direct branch applies no tenths scaling. -/
theorem claim_C3_cex :
    (check_writes direct_unit c3_state).map
      (fun s' => (s'.internal "$temperature", s'.internal "$temperature_target"))
      = some (some 225, some 225) ∧
    some (225 : ℚ) ≠ some (45 / 2 : ℚ) := by
  constructor
  · simp [check_writes, c3_state, direct_unit, extract_read_addresses, extractLoop,
      collect_addresses_from_expr, collectArgs, resolve_addr, dictUpsert,
      hasDelayMarker, directLoop, alLookup, mirrorLoop, mirror_map_sim, updMap]
  · simp
    norm_num

theorem directLoop_single (regs : Int → Int) (internal : String → Option ℚ)
    (l : List Int) :
    (directLoop regs [(100, "$temperature")] internal l) "$temperature"
        = (if (100 : Int) ∈ l then some ((regs 100 : ℚ))
           else internal "$temperature") ∧
      (directLoop regs [(100, "$temperature")] internal l) "$temperature_target"
        = (if (100 : Int) ∈ l then some ((regs 100 : ℚ))
           else internal "$temperature_target") := by
  have hne : ("$temperature" : String) ≠ "$temperature_target" := by decide
  have happ : ("$temperature" : String) ++ "_target" = "$temperature_target" := by decide
  induction l generalizing internal with
  | nil => simp [directLoop]
  | cons a rest ih =>
    by_cases ha : (100 : Int) = a
    · subst ha
      have hlk : alLookup [((100 : Int), "$temperature")] 100 = some "$temperature" := by
        simp [alLookup]
      simp only [directLoop, hlk, happ, List.mem_cons, true_or, if_pos, eq_self_iff_true]
      rcases ih (updMap (updMap internal "$temperature" (some ((regs 100 : ℚ))))
          "$temperature_target" (some ((regs 100 : ℚ)))) with ⟨ih1, ih2⟩
      by_cases hr : (100 : Int) ∈ rest
      · rw [ih1, ih2, if_pos hr, if_pos hr]
        exact ⟨rfl, rfl⟩
      · rw [ih1, ih2, if_neg hr, if_neg hr]
        constructor
        · rw [updMap_ne _ _ _ _ hne, updMap_same]
        · rw [updMap_same]
    · have hlk : alLookup [((100 : Int), "$temperature")] a = Option.none := by
        simp [alLookup, ha]
      have hmem : ((100 : Int) ∈ a :: rest) = ((100 : Int) ∈ rest) := by
        simp [List.mem_cons, ha]
      simp only [directLoop, hlk, hmem]
      exact ih internal

theorem mirrorLoop_single100_snd (dirty : List Int) (regs : Int → Int)
    (internal : String → Option ℚ) :
    (mirrorLoop [(100, "$temperature")] dirty regs internal mirror_map_sim).2
      = internal := by
  have h4 : alLookup [((100 : Int), "$temperature")] 10704 = Option.none := by
    simp [alLookup]
  have h5 : alLookup [((100 : Int), "$temperature")] 10705 = Option.none := by
    simp [alLookup]
  have h6 : alLookup [((100 : Int), "$temperature")] 10706 = Option.none := by
    simp [alLookup]
  simp only [mirrorLoop, mirror_map_sim, h4, h5, h6]
  split_ifs <;> simp only [mirrorLoop]

/-- C3 (amended): in direct mode (no delay marker), a client write of raw
value 225 to a register reverse-mapped to the tenths-scaled
`$temperature` yields `current == target == 225.0` — the raw register
value, with no tenths scaling — immediately after the next
reconciliation pass, with no gradual ramp, and the pass drains the dirty
set. -/
theorem claim_C3 (s : SimState) (h : (100 : Int) ∈ s.dirty) :
    ∃ s', check_writes direct_unit s = some s' ∧
      s'.internal "$temperature" = some ((s.registers 100 : ℚ)) ∧
      s'.internal "$temperature_target" = some ((s.registers 100 : ℚ)) ∧
      s'.dirty = [] := by
  have hdne : s.dirty ≠ [] := by intro he; rw [he] at h; simp at h
  have hex : extract_read_addresses direct_unit = some [(100, "$temperature")] := by
    simp [extract_read_addresses, direct_unit, extractLoop,
      collect_addresses_from_expr, collectArgs, resolve_addr, dictUpsert]
  have hnd : hasDelayMarker direct_unit.writeScript = false := by
    simp [hasDelayMarker, direct_unit]
  have hcw : check_writes direct_unit s = some
      { registers := (mirrorLoop [(100, "$temperature")] s.dirty s.registers
          (directLoop s.registers [(100, "$temperature")] s.internal s.dirty)
          mirror_map_sim).1,
        coils := s.coils,
        internal := (mirrorLoop [(100, "$temperature")] s.dirty s.registers
          (directLoop s.registers [(100, "$temperature")] s.internal s.dirty)
          mirror_map_sim).2,
        dirty := [] } := by
    rw [check_writes, if_neg hdne, if_neg (by simp [direct_unit]), hex, hnd]
    simp only [Bool.false_eq_true, if_false]
  refine ⟨_, hcw, ?_, ?_, rfl⟩
  · simp only [mirrorLoop_single100_snd]
    rw [(directLoop_single s.registers s.internal s.dirty).1, if_pos h]
  · simp only [mirrorLoop_single100_snd]
    rw [(directLoop_single s.registers s.internal s.dirty).2, if_pos h]

/-- C3 witness: the amended claim instantiated at the concrete post-write
state (`registers[100] = 225`, dirty `[100]`). -/
theorem claim_C3_witness :
    (100 : Int) ∈ c3_state.dirty ∧
    (∃ s', check_writes direct_unit c3_state = some s' ∧
      s'.internal "$temperature" = some ((c3_state.registers 100 : ℚ)) ∧
      s'.internal "$temperature_target" = some ((c3_state.registers 100 : ℚ)) ∧
      s'.dirty = []) :=
  ⟨by decide, claim_C3 c3_state (by decide)⟩

/-- A representative trigger-mode unit: the write script writes a trigger
register 100 first, contains a `delay` marker, and writes the setpoint
register 200 last; the read script maps register 200 to `$temperature`. -/
def trig_unit : UnitDef :=
  { readScript := [.assignment "$temperature" (.call "modbus_read_holding" [.intLit 200])]
  , writeScript :=
      [ .action "modbus_write_holding" [.intLit 100, .intLit 1]
      , .action "delay" [.intLit 1]
      , .action "modbus_write_holding" [.intLit 200, .strLit "$temperature"] ] }

/-- A state in which the setpoint register 200 holds 300 (tenths), the
trigger register 100 holds the non-zero value 5 and is not dirty, and
only the setpoint is dirty. -/
def c1_state : SimState :=
  { registers := fun a => if a = 200 then 300 else if a = 100 then 5 else 0
  , coils := fun _ => false, internal := fun _ => Option.none, dirty := [200] }

/-- C1 counterexample: with the trigger register (100) not dirty and
reading the non-zero value 5, the reconciliation pass nevertheless sets
`$temperature_target` to `30.0` — refuting "updated only when the
trigger register address is dirty AND its current register value reads
zero" — and leaves the trigger register at 5 instead of resetting it
to 1. -/
theorem claim_C1_cex :
    (check_writes trig_unit c1_state).map
      (fun s' => (s'.internal "$temperature_target", s'.registers 100))
      = some (some 30, 5) ∧
    (100 : Int) ∉ c1_state.dirty ∧ c1_state.registers 100 = 5 ∧ (5 : Int) ≠ 1 := by
  refine ⟨?_, by decide, by decide, by decide⟩
  simp [check_writes, c1_state, trig_unit, extract_read_addresses, extractLoop,
    collect_addresses_from_expr, collectArgs, resolve_addr, dictUpsert,
    hasDelayMarker, triggerLoop, triggerStep, ctrlAddrs, resolveCtrls, stmtBeq,
    exprBeq, exprBeqList, applyTargets, alLookup, mirrorLoop, mirror_map_sim, updMap]
  norm_num

theorem mirrorLoop_skip (atv : List (Int × String)) (dirty : List Int)
    (regs : Int → Int) (internal : String → Option ℚ)
    (h08 : (10708 : Int) ∉ dirty) (h09 : (10709 : Int) ∉ dirty)
    (h10 : (10710 : Int) ∉ dirty) :
    mirrorLoop atv dirty regs internal mirror_map_sim = (regs, internal) := by
  simp [mirrorLoop, mirror_map_sim, h08, h09, h10]

/-- C1 (amended): in trigger mode (delay marker present), the mapped
variable's `_target` is set to the setpoint register's value divided
by 10 whenever the setpoint address is dirty, regardless of the trigger
register's value or dirtiness; no other internal entry changes, the
registers are left untouched (in particular the trigger register is
never reset to 1), and the dirty set is drained. -/
theorem claim_C1 (s : SimState) (h200 : (200 : Int) ∈ s.dirty)
    (h08 : (10708 : Int) ∉ s.dirty) (h09 : (10709 : Int) ∉ s.dirty)
    (h10 : (10710 : Int) ∉ s.dirty) :
    ∃ s', check_writes trig_unit s = some s' ∧
      s'.internal "$temperature_target" = some ((s.registers 200 : ℚ) / 10) ∧
      s'.registers = s.registers ∧
      (∀ k, k ≠ "$temperature_target" → s'.internal k = s.internal k) ∧
      s'.dirty = [] := by
  have happ : ("$temperature" : String) ++ "_target" = "$temperature_target" := by decide
  have hdne : s.dirty ≠ [] := by intro he; rw [he] at h200; simp at h200
  have hex : extract_read_addresses trig_unit = some [(200, "$temperature")] := by
    simp [extract_read_addresses, trig_unit, extractLoop,
      collect_addresses_from_expr, collectArgs, resolve_addr, dictUpsert]
  have hd : hasDelayMarker trig_unit.writeScript = true := by
    simp [hasDelayMarker, trig_unit]
  have hs1 : ∀ internal, triggerStep trig_unit.writeScript s.registers s.dirty
      [(200, "$temperature")] internal
      (.action "modbus_write_holding" [.intLit 100, .intLit 1]) = some internal := by
    intro internal
    by_cases hm : (100 : Int) ∈ s.dirty <;>
      simp [triggerStep, resolve_addr, hm, ctrlAddrs, resolveCtrls, trig_unit,
        stmtBeq, exprBeq, exprBeqList, applyTargets]
  have hs2 : ∀ internal, triggerStep trig_unit.writeScript s.registers s.dirty
      [(200, "$temperature")] internal (.action "delay" [.intLit 1]) = some internal := by
    intro internal
    simp [triggerStep]
  have hs3 : ∀ internal, triggerStep trig_unit.writeScript s.registers s.dirty
      [(200, "$temperature")] internal
      (.action "modbus_write_holding" [.intLit 200, .strLit "$temperature"])
      = some (updMap (updMap internal "$temperature_target"
          (some ((s.registers 200 : ℚ))))
          "$temperature_target" (some ((s.registers 200 : ℚ) / 10))) := by
    intro internal
    simp [triggerStep, resolve_addr, h200, ctrlAddrs, resolveCtrls, trig_unit,
      stmtBeq, exprBeq, exprBeqList, applyTargets, happ]
  have hstep : triggerLoop trig_unit.writeScript s.registers s.dirty
      [(200, "$temperature")] s.internal trig_unit.writeScript
      = some (updMap (updMap s.internal "$temperature_target"
          (some ((s.registers 200 : ℚ))))
          "$temperature_target" (some ((s.registers 200 : ℚ) / 10))) := by
    show triggerLoop trig_unit.writeScript s.registers s.dirty
      [(200, "$temperature")] s.internal
      [ .action "modbus_write_holding" [.intLit 100, .intLit 1]
      , .action "delay" [.intLit 1]
      , .action "modbus_write_holding" [.intLit 200, .strLit "$temperature"] ] = _
    simp only [triggerLoop, hs1, hs2, hs3]
  have hcw : check_writes trig_unit s = some
      { registers := s.registers, coils := s.coils,
        internal := updMap (updMap s.internal "$temperature_target"
          (some ((s.registers 200 : ℚ))))
          "$temperature_target" (some ((s.registers 200 : ℚ) / 10)),
        dirty := [] } := by
    rw [check_writes, if_neg hdne, if_neg (by simp [trig_unit]), hex, hd]
    simp only [if_true]
    rw [hstep]
    simp only [mirrorLoop_skip _ _ _ _ h08 h09 h10]
  refine ⟨_, hcw, ?_, rfl, ?_, rfl⟩
  · simp
  · intro k hk
    simp [updMap, hk]

/-- C1 witness: the amended claim instantiated at the concrete state with
the setpoint register holding 300 and dirty. -/
theorem claim_C1_witness :
    ((200 : Int) ∈ c1_state.dirty ∧ (10708 : Int) ∉ c1_state.dirty ∧
      (10709 : Int) ∉ c1_state.dirty ∧ (10710 : Int) ∉ c1_state.dirty) ∧
    (∃ s', check_writes trig_unit c1_state = some s' ∧
      s'.internal "$temperature_target" = some ((c1_state.registers 200 : ℚ) / 10) ∧
      s'.registers = c1_state.registers ∧
      (∀ k, k ≠ "$temperature_target" → s'.internal k = c1_state.internal k) ∧
      s'.dirty = []) :=
  ⟨⟨by decide, by decide, by decide, by decide⟩,
    claim_C1 c1_state (by decide) (by decide) (by decide) (by decide)⟩

/-- A unit whose read script maps the mirror destination 10704 to `$x`. -/
def c5_unit : UnitDef :=
  { readScript := [.assignment "$x" (.call "modbus_read_holding" [.intLit 10704])]
  , writeScript := [] }

/-- A state in which only the mirror source 10708 (holding 7) is dirty. -/
def c5_state : SimState :=
  { registers := fun a => if a = 10708 then 7 else 0
  , coils := fun _ => false, internal := fun _ => Option.none, dirty := [10708] }

/-- C5 counterexample: the dirty address 10708 has no reverse mapping
(`addr_to_var` contains only 10704), yet the pass is not free of effect on
internal state — the mirror pass copies 10708 into 10704 and sets the
destination's mapped variable `$x` to 7.  The dirty set is still fully
drained. -/
theorem claim_C5_cex :
    (check_writes c5_unit c5_state).map
      (fun s' => (s'.internal "$x", s'.dirty)) = some (some 7, []) ∧
    extract_read_addresses c5_unit = some [(10704, "$x")] ∧
    alLookup [(10704, "$x")] 10708 = Option.none ∧
    c5_state.internal "$x" = Option.none ∧
    (some (7 : ℚ)) ≠ Option.none := by
  refine ⟨?_, ?_, by simp [alLookup], rfl, by simp⟩
  · simp [check_writes, c5_state, c5_unit, extract_read_addresses, extractLoop,
      collect_addresses_from_expr, collectArgs, resolve_addr, dictUpsert,
      hasDelayMarker, directLoop, alLookup, mirrorLoop, mirror_map_sim, updMap]
  · simp [extract_read_addresses, c5_unit, extractLoop,
      collect_addresses_from_expr, collectArgs, resolve_addr, dictUpsert]

theorem applyTargets_none (atv : List (Int × String)) (addr raw : Int)
    (internal : String → Option ℚ) (h : alLookup atv addr = Option.none) :
    applyTargets atv addr raw internal = internal := by
  induction atv generalizing internal with
  | nil => rfl
  | cons p rest ih =>
    rcases p with ⟨k, v⟩
    by_cases hk : k = addr
    · rw [alLookup, if_pos hk] at h
      simp at h
    · rw [alLookup, if_neg hk] at h
      rw [applyTargets, if_neg hk]
      exact ih internal h

theorem triggerStep_none (ws : List Stmt) (regs : Int → Int) (dirty : List Int)
    (atv : List (Int × String)) (internal internal' : String → Option ℚ) (stmt : Stmt)
    (hno : ∀ a ∈ dirty, alLookup atv a = Option.none)
    (h : triggerStep ws regs dirty atv internal stmt = some internal') :
    internal' = internal := by
  cases stmt with
  | assignment v e =>
    rw [triggerStep] at h
    exact (Option.some.inj h).symm
  | action f args =>
    rw [triggerStep] at h
    split at h
    · split at h
      · exact absurd h (by simp)
      · split at h
        · exact absurd h (by simp)
        · split at h
          · exact (Option.some.inj h).symm
          · split at h
            · rename_i hf a0 hhead addr hres hnot hmem
              split at h
              · exact absurd h (by simp)
              · split at h
                · exact (Option.some.inj h).symm
                · rw [applyTargets_none _ _ _ _ (hno addr hmem)] at h
                  exact (Option.some.inj h).symm
            · exact (Option.some.inj h).symm
    · exact (Option.some.inj h).symm

theorem triggerLoop_none (ws : List Stmt) (regs : Int → Int) (dirty : List Int)
    (atv : List (Int × String))
    (hno : ∀ a ∈ dirty, alLookup atv a = Option.none) :
    ∀ (l : List Stmt) (internal internal' : String → Option ℚ),
      triggerLoop ws regs dirty atv internal l = some internal' →
      internal' = internal := by
  intro l
  induction l with
  | nil =>
    intro internal internal' h
    rw [triggerLoop] at h
    exact (Option.some.inj h).symm
  | cons st rest ih =>
    intro internal internal' h
    rw [triggerLoop] at h
    cases hts : triggerStep ws regs dirty atv internal st with
    | none => rw [hts] at h; simp at h
    | some i1 =>
      rw [hts] at h
      rw [ih i1 internal' h]
      exact triggerStep_none ws regs dirty atv internal i1 st hno hts

theorem directLoop_none (regs : Int → Int) (atv : List (Int × String)) :
    ∀ (l : List Int) (internal : String → Option ℚ),
      (∀ a ∈ l, alLookup atv a = Option.none) →
      directLoop regs atv internal l = internal := by
  intro l
  induction l with
  | nil => intro internal _; rfl
  | cons a rest ih =>
    intro internal hno
    rw [directLoop, hno a (List.mem_cons_self a rest)]
    exact ih internal (fun b hb => hno b (List.mem_cons_of_mem a hb))

/-- C5 (amended): every reconciliation pass that starts with a non-empty
dirty set and returns, returns with the dirty set empty — drained as a
whole, never partially.  When additionally no dirty address has a reverse
mapping and no dirty address is a mirror source (10708/10709/10710), the
pass leaves internal state untouched; a dirty mirror source, however, may
update its destination's mapped variable even though the source itself
has no reverse mapping. -/
theorem claim_C5 (u : UnitDef) (s s' : SimState) (hne : s.dirty ≠ [])
    (h : check_writes u s = some s') :
    s'.dirty = [] ∧
    (∀ atv, extract_read_addresses u = some atv →
      (∀ a ∈ s.dirty, alLookup atv a = Option.none) →
      (10708 : Int) ∉ s.dirty → (10709 : Int) ∉ s.dirty →
      (10710 : Int) ∉ s.dirty →
      s'.internal = s.internal) := by
  rw [check_writes, if_neg hne] at h
  by_cases hbe : u.readScript.isEmpty ∧ u.writeScript.isEmpty
  · rw [if_pos hbe] at h
    cases h
    exact ⟨rfl, fun _ _ _ _ _ _ => rfl⟩
  · rw [if_neg hbe] at h
    cases hext : extract_read_addresses u with
    | none => rw [hext] at h; simp at h
    | some atv0 =>
      rw [hext] at h
      by_cases hdm : hasDelayMarker u.writeScript
      · rw [hdm] at h
        simp only [if_true] at h
        cases htl : triggerLoop u.writeScript s.registers s.dirty atv0 s.internal
            u.writeScript with
        | none => rw [htl] at h; simp at h
        | some internal1 =>
          rw [htl] at h
          cases h
          refine ⟨rfl, ?_⟩
          intro atv hatv hno h08 h09 h10
          have hatv0 : atv0 = atv := Option.some.inj hatv
          subst hatv0
          simp only [mirrorLoop_skip _ _ _ _ h08 h09 h10]
          exact triggerLoop_none u.writeScript s.registers s.dirty atv0 hno
            u.writeScript s.internal internal1 htl
      · rw [Bool.not_eq_true] at hdm
        rw [hdm] at h
        simp only [Bool.false_eq_true, if_false] at h
        cases h
        refine ⟨rfl, ?_⟩
        intro atv hatv hno h08 h09 h10
        have hatv0 : atv0 = atv := Option.some.inj hatv
        subst hatv0
        simp only [mirrorLoop_skip _ _ _ _ h08 h09 h10]
        exact directLoop_none s.registers atv0 s.dirty s.internal hno

/-- A state whose only dirty address, 999, has no reverse mapping under
`c5_unit` and is not a mirror source. -/
def w5_state : SimState :=
  { registers := fun _ => 0, coils := fun _ => false,
    internal := fun _ => Option.none, dirty := [999] }

/-- The drained state that the pass produces from `w5_state`. -/
def w5_result : SimState :=
  { registers := fun _ => 0, coils := fun _ => false,
    internal := fun _ => Option.none, dirty := [] }

/-- C5 witness: the amended claim instantiated on a pass over a single
unmapped, non-mirror dirty address. -/
theorem claim_C5_witness :
    w5_state.dirty ≠ [] ∧
    check_writes c5_unit w5_state = some w5_result ∧
    (w5_result.dirty = [] ∧
    (∀ atv, extract_read_addresses c5_unit = some atv →
      (∀ a ∈ w5_state.dirty, alLookup atv a = Option.none) →
      (10708 : Int) ∉ w5_state.dirty → (10709 : Int) ∉ w5_state.dirty →
      (10710 : Int) ∉ w5_state.dirty →
      w5_result.internal = w5_state.internal)) := by
  have hcw : check_writes c5_unit w5_state = some w5_result := by
    simp [check_writes, w5_state, w5_result, c5_unit, extract_read_addresses,
      extractLoop, collect_addresses_from_expr, collectArgs, resolve_addr,
      dictUpsert, hasDelayMarker, directLoop, alLookup, mirrorLoop,
      mirror_map_sim]
  exact ⟨by simp [w5_state], hcw, claim_C5 c5_unit w5_state w5_result (by simp [w5_state]) hcw⟩

theorem dictUpsert_lookup_ne (l : List (Int × String)) (k : Int) (v : String)
    (k' : Int) (h : k ≠ k') : alLookup (dictUpsert l k v) k' = alLookup l k' := by
  induction l with
  | nil => simp [dictUpsert, alLookup, h]
  | cons p rest ih =>
    by_cases hp : p.1 = k
    · rw [dictUpsert, if_pos hp, alLookup, alLookup]
      rw [if_neg h, if_neg (by rw [hp]; exact h)]
    · rw [dictUpsert, if_neg hp, alLookup, alLookup, ih]

mutual

theorem collect_no40000 (e : Expr) : ∀ (v : String) (acc acc' : List (Int × String)),
    collect_addresses_from_expr e v acc = some acc' →
    alLookup acc' 40000 = alLookup acc 40000 := by
  intro v acc acc' h
  cases e with
  | call f args =>
    rw [collect_addresses_from_expr] at h
    split at h
    · split at h
      · exact absurd h (by simp)
      · split at h
        · exact absurd h (by simp)
        · split at h
          · rw [Option.some.inj h]
          · rename_i hread a0 hhead addr hres hne40000
            rw [← Option.some.inj h]
            exact dictUpsert_lookup_ne acc addr v 40000 hne40000
    · split at h
      · exact collectArgs_no40000 args v acc acc' h
      · rw [Option.some.inj h]
  | intLit n => rw [collect_addresses_from_expr] at h; rw [Option.some.inj h]
  | floatLit q => rw [collect_addresses_from_expr] at h; rw [Option.some.inj h]
  | strLit str => rw [collect_addresses_from_expr] at h; rw [Option.some.inj h]

theorem collectArgs_no40000 (l : List Expr) : ∀ (v : String)
    (acc acc' : List (Int × String)),
    collectArgs l v acc = some acc' →
    alLookup acc' 40000 = alLookup acc 40000 := by
  intro v acc acc' h
  cases l with
  | nil => rw [collectArgs] at h; rw [Option.some.inj h]
  | cons a rest =>
    cases a with
    | call f args =>
      rw [collectArgs] at h
      cases h1 : collect_addresses_from_expr (.call f args) v acc with
      | none => rw [h1] at h; simp at h
      | some acc1 =>
        rw [h1] at h
        rw [collectArgs_no40000 rest v acc1 acc' h]
        exact collect_no40000 (.call f args) v acc acc1 h1
    | intLit n =>
      rw [collectArgs] at h
      exact collectArgs_no40000 rest v acc acc' h
    | floatLit q =>
      rw [collectArgs] at h
      exact collectArgs_no40000 rest v acc acc' h
    | strLit str =>
      rw [collectArgs] at h
      exact collectArgs_no40000 rest v acc acc' h

end

theorem extractLoop_no40000 : ∀ (l : List Stmt) (acc acc' : List (Int × String)),
    extractLoop l acc = some acc' → alLookup acc' 40000 = alLookup acc 40000 := by
  intro l
  induction l with
  | nil =>
    intro acc acc' h
    rw [extractLoop] at h
    rw [Option.some.inj h]
  | cons st rest ih =>
    intro acc acc' h
    cases st with
    | assignment varName value =>
      rw [extractLoop] at h
      split at h
      · exact ih acc acc' h
      · cases h1 : collect_addresses_from_expr value varName acc with
        | none => rw [h1] at h; simp at h
        | some acc1 =>
          rw [h1] at h
          rw [ih acc1 acc' h]
          exact collect_no40000 value varName acc acc1 h1
    | action f args =>
      rw [extractLoop] at h
      exact ih acc acc' h

theorem extract_no40000 (u : UnitDef) (atv : List (Int × String))
    (h : extract_read_addresses u = some atv) : alLookup atv 40000 = Option.none := by
  have h1 := extractLoop_no40000 u.readScript [] atv h
  rw [h1]
  rfl

theorem reg_write_with_mirror_spec (s : SimState) (addr val : Int) :
    (reg_write_with_mirror s addr val).registers
        = (fun a => if a = addr ∨
              ((addr = 10708 ∨ addr = 10710 ∨ addr = 10709) ∧ a = addr - 4)
            then val else s.registers a) ∧
      (reg_write_with_mirror s addr val).coils = s.coils ∧
      (reg_write_with_mirror s addr val).internal = s.internal ∧
      (reg_write_with_mirror s addr val).dirty
        = (if addr ∈ s.dirty then s.dirty else s.dirty ++ [addr]) := by
  by_cases h8 : addr = 10708
  · subst h8
    have hfind : mirror_map_sim.find? (fun p => p.1 == (10708 : Int))
        = some (10708, 10704) := by decide
    refine ⟨?_, ?_, ?_, ?_⟩ <;> simp only [reg_write_with_mirror, hfind]
    funext a
    simp only [updMap]
    split_ifs <;> first | rfl | simp_all
  · by_cases h10 : addr = 10710
    · subst h10
      have hfind : mirror_map_sim.find? (fun p => p.1 == (10710 : Int))
          = some (10710, 10706) := by decide
      refine ⟨?_, ?_, ?_, ?_⟩ <;> simp only [reg_write_with_mirror, hfind]
      funext a
      simp only [updMap]
      split_ifs <;> first | rfl | simp_all
    · by_cases h9 : addr = 10709
      · subst h9
        have hfind : mirror_map_sim.find? (fun p => p.1 == (10709 : Int))
            = some (10709, 10705) := by decide
        refine ⟨?_, ?_, ?_, ?_⟩ <;> simp only [reg_write_with_mirror, hfind]
        funext a
        simp only [updMap]
        split_ifs <;> first | rfl | simp_all
      · have b8 : ((10708 : Int) == addr) = false :=
          beq_eq_false_iff_ne.mpr (fun hh => h8 hh.symm)
        have b10 : ((10710 : Int) == addr) = false :=
          beq_eq_false_iff_ne.mpr (fun hh => h10 hh.symm)
        have b9 : ((10709 : Int) == addr) = false :=
          beq_eq_false_iff_ne.mpr (fun hh => h9 hh.symm)
        have hfind : mirror_map_sim.find? (fun p => p.1 == addr) = Option.none := by
          simp [mirror_map_sim, List.find?, b8, b10, b9]
        refine ⟨?_, ?_, ?_, ?_⟩ <;> simp only [reg_write_with_mirror, hfind]
        funext a
        simp only [updMap]
        split_ifs <;> first | rfl | simp_all

theorem fc16_write_internal_coils (vs : List Int) : ∀ (s : SimState) (start : Int),
    (fc16_write s start vs).internal = s.internal ∧
      (fc16_write s start vs).coils = s.coils := by
  induction vs with
  | nil => intro s start; exact ⟨rfl, rfl⟩
  | cons v rest ih =>
    intro s start
    rw [fc16_write]
    rcases ih (reg_write_with_mirror s start v) (start + 1) with ⟨h1, h2⟩
    rw [h1, h2]
    exact ⟨(reg_write_with_mirror_spec s start v).2.2.1,
      (reg_write_with_mirror_spec s start v).2.1⟩

/-- C10: a client protocol write — FC6 or FC16 — to the packed front-panel
register `0x9C40` changes only that register and the dirty set: the FC6
handler and every FC16 write leave coils and internal state untouched,
and a single-register FC16 frame at `0x9C40` updates exactly that
register and the dirty set; the reverse map built from any unit's read
script never contains `0x9C40`; and a subsequent reconciliation pass
whose only dirty address is `0x9C40` leaves internal state unchanged,
whichever mode it runs in.  Unpacking therefore happens only through DSL
write actions. -/
theorem claim_C10 :
    (∀ (s : SimState) (v : Int),
      (fc6_write s 40000 v).registers 40000 = v ∧
      (∀ a, a ≠ 40000 → (fc6_write s 40000 v).registers a = s.registers a) ∧
      (fc6_write s 40000 v).coils = s.coils ∧
      (fc6_write s 40000 v).internal = s.internal ∧
      (fc6_write s 40000 v).dirty
        = (if (40000 : Int) ∈ s.dirty then s.dirty else s.dirty ++ [40000])) ∧
    (∀ (s : SimState) (start : Int) (vs : List Int),
      (fc16_write s start vs).internal = s.internal ∧
      (fc16_write s start vs).coils = s.coils) ∧
    (∀ (s : SimState) (v : Int),
      (fc16_write s 40000 [v]).registers 40000 = v ∧
      (∀ a, a ≠ 40000 → (fc16_write s 40000 [v]).registers a = s.registers a) ∧
      (fc16_write s 40000 [v]).dirty
        = (if (40000 : Int) ∈ s.dirty then s.dirty else s.dirty ++ [40000])) ∧
    (∀ (u : UnitDef) (atv : List (Int × String)),
      extract_read_addresses u = some atv → alLookup atv 40000 = Option.none) ∧
    (∀ (u : UnitDef) (s s' : SimState), s.dirty = [40000] →
      check_writes u s = some s' → s'.internal = s.internal) := by
  have hfind : mirror_map_sim.find? (fun p => p.1 == (40000 : Int)) = Option.none := by
    decide
  have h16eq : ∀ (s : SimState) (v : Int),
      fc16_write s 40000 [v] = reg_write_with_mirror s 40000 v := by
    intro s v
    rw [fc16_write, fc16_write]
  refine ⟨?_, ?_, ?_, extract_no40000, ?_⟩
  · intro s v
    refine ⟨?_, ?_, ?_, ?_, ?_⟩ <;>
      simp [fc6_write, reg_write_with_mirror, hfind, updMap]
    intro a ha
    simp [ha]
  · intro s start vs
    exact fc16_write_internal_coils vs s start
  · intro s v
    refine ⟨?_, ?_, ?_⟩ <;> rw [h16eq s v] <;>
      simp [reg_write_with_mirror, hfind, updMap]
    intro a ha
    simp [ha]
  · intro u s s' hdirty h
    have hne : s.dirty ≠ [] := by rw [hdirty]; simp
    rw [check_writes, if_neg hne] at h
    by_cases hbe : u.readScript.isEmpty ∧ u.writeScript.isEmpty
    · rw [if_pos hbe] at h
      cases h
      rfl
    · rw [if_neg hbe] at h
      cases hext : extract_read_addresses u with
      | none => rw [hext] at h; simp at h
      | some atv0 =>
        rw [hext] at h
        have hno : ∀ a ∈ s.dirty, alLookup atv0 a = Option.none := by
          intro a ha
          rw [hdirty] at ha
          rcases List.mem_singleton.1 ha with rfl
          exact extract_no40000 u atv0 hext
        have h08 : (10708 : Int) ∉ s.dirty := by rw [hdirty]; decide
        have h09 : (10709 : Int) ∉ s.dirty := by rw [hdirty]; decide
        have h10 : (10710 : Int) ∉ s.dirty := by rw [hdirty]; decide
        by_cases hdm : hasDelayMarker u.writeScript
        · rw [hdm] at h
          simp only [if_true] at h
          cases htl : triggerLoop u.writeScript s.registers s.dirty atv0 s.internal
              u.writeScript with
          | none => rw [htl] at h; simp at h
          | some internal1 =>
            rw [htl] at h
            cases h
            simp only [mirrorLoop_skip _ _ _ _ h08 h09 h10]
            exact triggerLoop_none u.writeScript s.registers s.dirty atv0 hno
              u.writeScript s.internal internal1 htl
        · rw [Bool.not_eq_true] at hdm
          rw [hdm] at h
          simp only [Bool.false_eq_true, if_false] at h
          cases h
          simp only [mirrorLoop_skip _ _ _ _ h08 h09 h10]
          exact directLoop_none s.registers atv0 s.dirty s.internal hno

/-- C10 witness: the FC6 and FC16 frame properties at a concrete state and
value, and the reconciliation no-op at the concrete front-panel-only
dirty state. -/
theorem claim_C10_witness :
    ((fc6_write init_state 40000 336).registers 40000 = 336 ∧
      (fc6_write init_state 40000 336).internal "$power" = some 0) ∧
    ((fc16_write init_state 40000 [336]).registers 40000 = 336 ∧
      (fc16_write init_state 40000 [336]).internal "$power" = some 0 ∧
      (fc16_write init_state 40000 [336]).coils 31 = false) ∧
    alLookup [(10704, "$x")] 40000 = Option.none ∧
    (∀ s', check_writes c5_unit { init_state with dirty := [40000] } = some s' →
      s'.internal = init_state.internal) := by
  refine ⟨⟨?_, ?_⟩, ⟨?_, ?_, ?_⟩, ?_, ?_⟩
  · exact (claim_C10.1 init_state 336).1
  · rw [(claim_C10.1 init_state 336).2.2.2.1]
    simp [init_state]
  · exact (claim_C10.2.2.1 init_state 336).1
  · rw [(claim_C10.2.1 init_state 40000 [336]).1]
    simp [init_state]
  · rw [(claim_C10.2.1 init_state 40000 [336]).2]
    simp [init_state]
  · exact claim_C10.2.2.2.1 c5_unit [(10704, "$x")] (by
      simp [extract_read_addresses, c5_unit, extractLoop,
        collect_addresses_from_expr, collectArgs, resolve_addr, dictUpsert])
  · intro s' h
    exact claim_C10.2.2.2.2 c5_unit { init_state with dirty := [40000] } s' rfl h

/-- The internal state of the physics-convergence scenario: temperature at
20.0, its target at 25.0, no other variables. -/
def tempInit : String → Option ℚ := fun k =>
  if k = "$temperature" then some 20
  else if k = "$temperature_target" then some 25
  else Option.none

theorem physics_var_step_bounds (internal : String → Option ℚ) (varName : String) :
    |((physics_var_step internal varName) varName).getD 0 - (internal varName).getD 0|
        ≤ (if varName = "$power" then (1 : ℚ)/2 else 1/10) ∧
      min ((internal varName).getD 0) ((internal (varName ++ "_target")).getD 0)
        ≤ ((physics_var_step internal varName) varName).getD 0 ∧
      ((physics_var_step internal varName) varName).getD 0
        ≤ max ((internal varName).getD 0) ((internal (varName ++ "_target")).getD 0) := by
  set c := (internal varName).getD 0 with hc
  set t := (internal (varName ++ "_target")).getD 0 with ht
  set sp : ℚ := if varName = "$power" then (1 : ℚ)/2 else 1/10 with hsp
  have hsppos : (0 : ℚ) < sp := by
    rw [hsp]; split_ifs <;> norm_num
  simp only [physics_var_step, ← hc, ← ht, ← hsp]
  by_cases hs : (internal varName).isSome
  · simp only [hs, if_true]
    by_cases hgap : |c - t| > 1/100
    · simp only [hgap, if_true]
      by_cases hdir : t > c
      · simp only [hdir, if_true, updMap_same, Option.getD_some]
        have h1 : min t (c + sp) ≤ c + sp := min_le_right t (c + sp)
        have h2 : c ≤ min t (c + sp) := le_min (le_of_lt hdir) (by linarith)
        have h3 : min t (c + sp) ≤ t := min_le_left t (c + sp)
        refine ⟨abs_le.mpr ⟨by linarith, by linarith⟩, ?_, ?_⟩
        · have := min_le_left c t
          linarith
        · have := le_max_right c t
          linarith
      · simp only [hdir, if_false, updMap_same, Option.getD_some]
        have hle : t ≤ c := not_lt.1 hdir
        have h1 : t ≤ max t (c - sp) := le_max_left t (c - sp)
        have h2 : max t (c - sp) ≤ c := max_le hle (by linarith)
        have h3 : c - sp ≤ max t (c - sp) := le_max_right t (c - sp)
        refine ⟨abs_le.mpr ⟨by linarith, by linarith⟩, ?_, ?_⟩
        · have := min_le_right c t
          linarith
        · have := le_max_left c t
          linarith
    · simp only [hgap, if_false, ← hc]
      refine ⟨by simp [abs_nonneg]; linarith, min_le_left c t, le_max_left c t⟩
  · simp only [hs, if_false, ← hc]
    refine ⟨by simp [abs_nonneg]; linarith, min_le_left c t, le_max_left c t⟩

theorem temp_iterate (N : Nat) :
    ((physics_vars_tick^[N] tempInit) "$temperature")
        = some (min 25 (20 + (N : ℚ) / 10)) ∧
      ((physics_vars_tick^[N] tempInit) "$temperature_target") = some 25 ∧
      ((physics_vars_tick^[N] tempInit) "$power") = Option.none := by
  induction N with
  | zero =>
    refine ⟨?_, by simp [tempInit], by simp [tempInit]⟩
    simp [tempInit]
    norm_num
  | succ M ih =>
    rcases ih with ⟨ih1, ih2, ih3⟩
    rw [Function.iterate_succ_apply']
    have hpow : physics_var_step (physics_vars_tick^[M] tempInit) "$power"
        = physics_vars_tick^[M] tempInit := by
      rw [physics_var_step, ih3]
      simp
    have htgt : ("$temperature" : String) ++ "_target" = "$temperature_target" := by decide
    have hne1 : ("$temperature_target" : String) ≠ "$temperature" := by decide
    have hne2 : ("$power" : String) ≠ "$temperature" := by decide
    by_cases hN : M < 50
    · have hMle : (M : ℚ) ≤ 49 := by exact_mod_cast Nat.lt_succ_iff.1 (by omega)
      have hmin : min (25 : ℚ) (20 + (M : ℚ) / 10) = 20 + (M : ℚ) / 10 :=
        min_eq_right (by linarith)
      have hgap : |(20 + (M : ℚ) / 10) - 25| > 1/100 := by
        rw [abs_sub_comm, abs_of_nonneg (by linarith)]
        linarith
      have hdir : (25 : ℚ) > 20 + (M : ℚ) / 10 := by linarith
      refine ⟨?_, ?_, ?_⟩
      · show (physics_var_step (physics_var_step (physics_vars_tick^[M] tempInit)
          "$power") "$temperature") "$temperature" = _
        rw [hpow, physics_var_step, ih1]
        have hstepv : (if ("$temperature" : String) = "$power" then (1 : ℚ)/2 else 1/10)
            = 1/10 := by rw [if_neg (by decide)]
        simp only [Option.isSome_some, if_true, htgt, ih2, Option.getD_some, hmin,
          hgap, if_true, hdir, hstepv, updMap_same]
        congr 1
        push_cast
        rw [show (20 : ℚ) + (↑M + 1) / 10 = 20 + ↑M / 10 + 1/10 by ring]
      · show (physics_var_step (physics_var_step (physics_vars_tick^[M] tempInit)
          "$power") "$temperature") "$temperature_target" = _
        rw [hpow, physics_var_step, ih1]
        simp only [Option.isSome_some, if_true, htgt, ih2, Option.getD_some, hmin,
          hgap, if_true, hdir]
        rw [updMap_ne _ _ _ _ hne1]
        exact ih2
      · show (physics_var_step (physics_var_step (physics_vars_tick^[M] tempInit)
          "$power") "$temperature") "$power" = _
        rw [hpow, physics_var_step, ih1]
        simp only [Option.isSome_some, if_true, htgt, ih2, Option.getD_some, hmin,
          hgap, if_true, hdir]
        rw [updMap_ne _ _ _ _ hne2]
        exact ih3
    · have hMge : (50 : ℚ) ≤ (M : ℚ) := by exact_mod_cast not_lt.1 hN
      have hmin : min (25 : ℚ) (20 + (M : ℚ) / 10) = 25 :=
        min_eq_left (by linarith)
      have hgap : ¬(|(25 : ℚ) - 25| > 1/100) := by
        simp
      refine ⟨?_, ?_, ?_⟩
      · show (physics_var_step (physics_var_step (physics_vars_tick^[M] tempInit)
          "$power") "$temperature") "$temperature" = _
        rw [hpow, physics_var_step, ih1]
        simp only [Option.isSome_some, if_true, htgt, ih2, Option.getD_some, hmin,
          hgap, if_false]
        rw [ih1, hmin, show ((M + 1 : Nat) : ℚ) = (M : ℚ) + 1 by push_cast; ring,
          min_eq_left (by linarith : (25 : ℚ) ≤ 20 + ((M : ℚ) + 1) / 10)]
      · show (physics_var_step (physics_var_step (physics_vars_tick^[M] tempInit)
          "$power") "$temperature") "$temperature_target" = _
        rw [hpow, physics_var_step, ih1]
        simp only [Option.isSome_some, if_true, htgt, ih2, Option.getD_some, hmin,
          hgap, if_false]
      · show (physics_var_step (physics_var_step (physics_vars_tick^[M] tempInit)
          "$power") "$temperature") "$power" = _
        rw [hpow, physics_var_step, ih1]
        simp only [Option.isSome_some, if_true, htgt, ih2, Option.getD_some, hmin,
          hgap, if_false, ih3]

/-- C4: each physics tick moves a continuously-varying variable (`$power`
step 0.5, others step 0.1) toward its target by at most the per-tick step
and never past the target; and from `current = 20.0`, `target = 25.0`,
after exactly `N` ticks the temperature equals
`min(25.0, 20.0 + 0.1 * N)` and never exceeds 25.0. -/
theorem claim_C4 :
    (∀ (internal : String → Option ℚ) (varName : String),
      varName = "$power" ∨ varName = "$temperature" →
      |((physics_var_step internal varName) varName).getD 0
          - (internal varName).getD 0|
          ≤ (if varName = "$power" then (1 : ℚ)/2 else 1/10) ∧
        min ((internal varName).getD 0) ((internal (varName ++ "_target")).getD 0)
          ≤ ((physics_var_step internal varName) varName).getD 0 ∧
        ((physics_var_step internal varName) varName).getD 0
          ≤ max ((internal varName).getD 0) ((internal (varName ++ "_target")).getD 0)) ∧
    (∀ N : Nat,
      ((physics_vars_tick^[N] tempInit) "$temperature")
          = some (min 25 (20 + (N : ℚ) / 10)) ∧
        ((physics_vars_tick^[N] tempInit) "$temperature").getD 0 ≤ 25) := by
  constructor
  · intro internal varName _
    exact physics_var_step_bounds internal varName
  · intro N
    refine ⟨(temp_iterate N).1, ?_⟩
    rw [(temp_iterate N).1]
    simp only [Option.getD_some]
    exact min_le_left _ _

/-- C4 witness: the per-tick bound instantiated for `$temperature` on the
scenario state, and the closed-form value after 3 ticks. -/
theorem claim_C4_witness :
    (|((physics_var_step tempInit "$temperature") "$temperature").getD 0
        - (tempInit "$temperature").getD 0|
        ≤ (if "$temperature" = "$power" then (1 : ℚ)/2 else 1/10) ∧
      min ((tempInit "$temperature").getD 0)
          ((tempInit ("$temperature" ++ "_target")).getD 0)
        ≤ ((physics_var_step tempInit "$temperature") "$temperature").getD 0 ∧
      ((physics_var_step tempInit "$temperature") "$temperature").getD 0
        ≤ max ((tempInit "$temperature").getD 0)
            ((tempInit ("$temperature" ++ "_target")).getD 0)) ∧
    ((physics_vars_tick^[3] tempInit) "$temperature")
        = some (min 25 (20 + (3 : ℚ) / 10)) :=
  ⟨claim_C4.1 tempInit "$temperature" (Or.inr rfl), (claim_C4.2 3).1⟩

/-- The value of a bit list read LSB-first, as one packed byte.  This is
the statement-side formalisation of "bit-packed LSB-first within each
byte" used to compare against the FC1 packing loop. -/
def bitsToByte : List Bool → Nat
  | [] => 0
  | b :: rest => (if b then 1 else 0) + 2 * bitsToByte rest

/-- The statement-side chunked packing: successive 8-bit groups, LSB-first
within each byte, the last byte zero-padded. -/
def packChunks (vals : List Bool) : List Nat :=
  if h : vals = [] then [] else bitsToByte (vals.take 8) :: packChunks (vals.drop 8)
termination_by vals.length
decreasing_by
  simp only [List.length_drop]
  have hp : 0 < vals.length := List.length_pos.mpr h
  omega

theorem lor_pow_add : ∀ pos < 8, ∀ cur < 2 ^ pos,
    cur ||| (1 <<< pos) = cur + 2 ^ pos := by decide

theorem pack_bits_aux : ∀ (vals : List Bool) (cur pos : Nat), 1 ≤ pos → pos < 8 →
    cur < 2 ^ pos →
    pack_bits vals cur pos
      = (cur + 2 ^ pos * bitsToByte (vals.take (8 - pos)))
        :: pack_bits (vals.drop (8 - pos)) 0 0 := by
  intro vals
  induction vals with
  | nil =>
    intro cur pos h1 h8 hc
    rw [pack_bits, if_pos (by omega)]
    simp [bitsToByte, pack_bits]
  | cons v rest ih =>
    intro cur pos h1 h8 hc
    rw [pack_bits]
    by_cases hpos7 : pos + 1 = 8
    · rw [if_pos hpos7]
      have hp : pos = 7 := by omega
      subst hp
      have htake : (v :: rest).take (8 - 7) = [v] := by simp
      have hdrop : (v :: rest).drop (8 - 7) = rest := by simp
      rw [htake, hdrop]
      cases v
      · simp [bitsToByte]
      · rw [lor_pow_add 7 (by omega) cur hc]
        simp [bitsToByte]
    · rw [if_neg hpos7]
      have hcur1 : (if v then cur ||| (1 <<< pos) else cur) < 2 ^ (pos + 1) := by
        cases v
        · simp only [Bool.false_eq_true, if_false]
          calc cur < 2 ^ pos := hc
            _ ≤ 2 ^ (pos + 1) := Nat.pow_le_pow_right (by omega) (by omega)
        · simp only [if_true]
          rw [lor_pow_add pos (by omega) cur hc, pow_succ]
          omega
      rw [ih _ (pos + 1) (by omega) (by omega) hcur1]
      have htake : (v :: rest).take (8 - pos) = v :: rest.take (8 - (pos + 1)) := by
        rw [show 8 - pos = (8 - (pos + 1)) + 1 by omega]
        rfl
      have hdrop : (v :: rest).drop (8 - pos) = rest.drop (8 - (pos + 1)) := by
        rw [show 8 - pos = (8 - (pos + 1)) + 1 by omega]
        rfl
      rw [htake, hdrop]
      congr 1
      simp only [bitsToByte]
      cases v
      · simp only [Bool.false_eq_true, if_false]
        ring
      · rw [lor_pow_add pos (by omega) cur hc]
        simp only [if_true]
        ring

theorem pack_bits_eq_chunks_aux : ∀ (n : Nat) (l : List Bool), l.length ≤ n →
    pack_bits l 0 0 = packChunks l := by
  intro n
  induction n with
  | zero =>
    intro l hl
    have : l = [] := by
      cases l
      · rfl
      · simp at hl
    subst this
    rw [pack_bits, packChunks]
    simp
  | succ m ihm =>
    intro l hl
    cases l with
    | nil =>
      rw [pack_bits, packChunks]
      simp
    | cons v rest =>
      rw [pack_bits, if_neg (by omega)]
      have hcur1 : (if v then 0 ||| (1 <<< 0) else 0) < 2 ^ 1 := by
        cases v <;> decide
      rw [pack_bits_aux rest _ 1 le_rfl (by omega) hcur1]
      rw [packChunks, dif_neg (by simp)]
      have htake : (v :: rest).take 8 = v :: rest.take 7 := rfl
      have hdrop : (v :: rest).drop 8 = rest.drop 7 := rfl
      have h81 : (8 : Nat) - 1 = 7 := rfl
      rw [htake, hdrop, h81]
      congr 1
      apply ihm
      have := List.length_drop 7 rest
      simp only [List.length_cons] at hl
      omega

theorem pack_bits_eq_chunks (l : List Bool) : pack_bits l 0 0 = packChunks l :=
  pack_bits_eq_chunks_aux l.length l le_rfl

theorem packChunks_length_aux : ∀ (n : Nat) (l : List Bool), l.length ≤ n →
    (packChunks l).length = (l.length + 7) / 8 := by
  intro n
  induction n with
  | zero =>
    intro l hl
    have : l = [] := by
      cases l
      · rfl
      · simp at hl
    subst this
    rw [packChunks]
    simp
  | succ m ihm =>
    intro l hl
    cases l with
    | nil => rw [packChunks]; simp
    | cons v rest =>
      rw [packChunks, dif_neg (by simp)]
      rw [List.length_cons, ihm _ (by simp only [List.length_drop]; omega)]
      simp only [List.length_drop, List.length_cons]
      omega

theorem packChunks_getD_aux : ∀ (n : Nat) (l : List Bool), l.length ≤ n → ∀ (j : Nat),
    (packChunks l).getD j 0 = bitsToByte ((l.drop (8 * j)).take 8) := by
  intro n
  induction n with
  | zero =>
    intro l hl j
    have : l = [] := by
      cases l
      · rfl
      · simp at hl
    subst this
    rw [packChunks]
    simp [bitsToByte]
  | succ m ihm =>
    intro l hl j
    cases l with
    | nil =>
      rw [packChunks]
      simp [bitsToByte]
    | cons v rest =>
      rw [packChunks, dif_neg (by simp)]
      cases j with
      | zero => simp
      | succ k =>
        rw [List.getD_cons_succ,
          ihm _ (by simp only [List.length_drop, List.length_cons] at hl ⊢; omega) k]
        congr 2
        rw [List.drop_drop]
        congr 1
        omega

theorem bitsToByte_bit (l : List Bool) : ∀ (k : Nat),
    bitsToByte l / 2 ^ k % 2 = (if l.getD k false then 1 else 0) := by
  induction l with
  | nil =>
    intro k
    simp [bitsToByte]
  | cons b rest ih =>
    intro k
    cases k with
    | zero =>
      simp only [pow_zero, Nat.div_one, List.getD_cons_zero, bitsToByte]
      cases b <;> simp
    | succ j =>
      rw [List.getD_cons_succ, ← ih j, bitsToByte]
      have h2 : ((if b then 1 else 0) + 2 * bitsToByte rest) / 2 = bitsToByte rest := by
        cases b <;> simp <;> omega
      rw [show 2 ^ (j + 1) = 2 * 2 ^ j by ring, ← Nat.div_div_eq_div_mul, h2]

theorem write_coil_pattern_preserve : ∀ (pat : List Bool) (s : SimState) (start a : Int),
    a < start → (write_coil_pattern s start pat).coils a = s.coils a := by
  intro pat
  induction pat with
  | nil => intro s start a _; rfl
  | cons b rest ih =>
    intro s start a ha
    rw [write_coil_pattern, ih _ (start + 1) a (by omega)]
    simp [fc5_write, updMap, show a ≠ start by omega]

theorem coilReads_write_pattern : ∀ (pat : List Bool) (s : SimState) (start : Int),
    coilReads (write_coil_pattern s start pat).coils start pat.length = pat := by
  intro pat
  induction pat with
  | nil => intro s start; rfl
  | cons b rest ih =>
    intro s start
    rw [write_coil_pattern, List.length_cons, coilReads]
    congr 1
    · rw [write_coil_pattern_preserve rest _ (start + 1) start (by omega)]
      cases b <;> simp [fc5_write, updMap]
    · exact ih _ (start + 1)

/-- C8 counterexample: an FC1 request for 2041 coils makes
`struct.pack('B', byte_count)` raise (`byte_count = 256 > 255`), so no
response at all is produced — the claim's "for every count n" fails
beyond 2040. -/
theorem claim_C8_cex : fc1_payload init_state 0 2041 = Option.none := by
  norm_num [fc1_payload]

/-- C8 (amended): for every start address, every on/off pattern written
via FC5, and every count `n = pattern length` up to 2040 (so that the
byte count fits the one-byte field), the FC1 response is the byte count
`ceil(n / 8)` followed by the pattern bit-packed LSB-first within each
byte, zero-padded in the final byte; for larger counts the handler
raises and sends nothing. -/
theorem claim_C8 (s0 : SimState) (start : Int) (pattern : List Bool)
    (hn : pattern.length ≤ 2040) :
    ∃ out, fc1_payload (write_coil_pattern s0 start pattern) start pattern.length
        = some out ∧
      out.length = 1 + (pattern.length + 7) / 8 ∧
      out.head? = some ((pattern.length + 7) / 8) ∧
      ∀ i, i < 8 * ((pattern.length + 7) / 8) →
        out.getD (1 + i / 8) 0 / 2 ^ (i % 8) % 2
          = (if pattern.getD i false then 1 else 0) := by
  have hcr : coilReads (write_coil_pattern s0 start pattern).coils start
      pattern.length = pattern := coilReads_write_pattern pattern s0 start
  refine ⟨((pattern.length + 7) / 8) :: packChunks pattern, ?_, ?_, ?_, ?_⟩
  · simp only [fc1_payload, hcr]
    rw [if_neg (by omega), pack_bits_eq_chunks]
  · simp only [List.length_cons,
      packChunks_length_aux pattern.length pattern le_rfl]
    omega
  · rfl
  · intro i hi
    rw [show 1 + i / 8 = (i / 8) + 1 by omega, List.getD_cons_succ,
      packChunks_getD_aux pattern.length pattern le_rfl (i / 8),
      bitsToByte_bit]
    congr 1
    rw [List.getD_eq_getElem?_getD, List.getElem?_take,
      if_pos (Nat.mod_lt i (by omega)), List.getElem?_drop,
      show 8 * (i / 8) + i % 8 = i by omega, ← List.getD_eq_getElem?_getD]

/-- C8 witness: the amended claim instantiated on the 3-coil pattern
`[on, off, on]` written at address 5. -/
theorem claim_C8_witness :
    ([true, false, true] : List Bool).length ≤ 2040 ∧
    (∃ out, fc1_payload (write_coil_pattern init_state 5 [true, false, true]) 5
        ([true, false, true] : List Bool).length = some out ∧
      out.length = 1 + (([true, false, true] : List Bool).length + 7) / 8 ∧
      out.head? = some ((([true, false, true] : List Bool).length + 7) / 8) ∧
      ∀ i, i < 8 * ((([true, false, true] : List Bool).length + 7) / 8) →
        out.getD (1 + i / 8) 0 / 2 ^ (i % 8) % 2
          = (if ([true, false, true] : List Bool).getD i false then 1 else 0)) :=
  ⟨by decide, claim_C8 init_state 5 [true, false, true] (by decide)⟩

theorem getD_cons_shift (v : Int) (rest : List Int) (x : Int) (hx : 1 ≤ x) :
    (v :: rest).getD x.toNat 0 = rest.getD (x - 1).toNat 0 := by
  have h : x.toNat = (x - 1).toNat + 1 := by omega
  rw [h, List.getD_cons_succ]

theorem fc16_registers (vs : List Int) : ∀ (s : SimState) (start a : Int),
    (fc16_write s start vs).registers a
      = if (a = 10704 ∨ a = 10705 ∨ a = 10706) ∧ start ≤ a + 4 ∧
            a + 4 < start + vs.length
        then vs.getD (a + 4 - start).toNat 0
        else if start ≤ a ∧ a < start + vs.length then vs.getD (a - start).toNat 0
        else s.registers a := by
  induction vs with
  | nil =>
    intro s start a
    rw [fc16_write]
    simp only [List.length_nil]
    split_ifs <;> first | rfl | omega
  | cons v rest ih =>
    intro s start a
    rw [fc16_write, ih, (reg_write_with_mirror_spec s start v).1]
    simp only [List.length_cons]
    split_ifs <;>
      first
      | rfl
      | omega
      | (rw [getD_cons_shift _ _ _ (by omega)]; congr 1; omega)
      | (rw [show ((a + 4 - start).toNat) = 0 by omega]; rfl)
      | (rw [show ((a - start).toNat) = 0 by omega]; rfl)

theorem fc3_payload_one (s : SimState) (a : Int) :
    fc3_payload s a 1
      = [2, ((s.registers a) % 65536).toNat / 256, ((s.registers a) % 65536).toNat % 256] := by
  rfl

/-- C6 counterexample: an FC16 write of `[1, 2, 3, 4, 5]` to `10704..10708`
covers both the mirror destination 10704 and its source 10708; the
mirror overwrites the destination, so an immediate FC3 read of 10704
returns 5 (the source's value), not the 1 written to 10704. -/
theorem claim_C6_cex :
    fc3_payload (fc16_write init_state 10704 [1, 2, 3, 4, 5]) 10704 1 = [2, 0, 5] ∧
    ([2, 0, 5] : List Nat) ≠ [2, 0, 1] := by
  constructor
  · decide
  · decide

/-- C6 (amended): an FC6 write followed by an immediate FC3 or FC4 read of
the same address returns exactly the written 16-bit value, and a mirror
source additionally copies the value into its destination at write time.
An FC16 write reads back exactly the written values except at a mirror
destination (10704-10706) whose source (address + 4) lies inside the same
written span — that address instead holds the value written to the
source; every FC16-written mirror source also propagates its value to
its destination immediately. -/
theorem claim_C6 :
    (∀ (s : SimState) (addr val : Int), 0 ≤ val → val < 65536 →
      fc3_payload (fc6_write s addr val) addr 1
          = [2, val.toNat / 256, val.toNat % 256] ∧
      fc4_payload (fc6_write s addr val) addr 1
          = fc3_payload (fc6_write s addr val) addr 1 ∧
      ((addr = 10708 ∨ addr = 10709 ∨ addr = 10710) →
        (fc6_write s addr val).registers (addr - 4) = val)) ∧
    (∀ (s : SimState) (start : Int) (vs : List Int) (i : Nat), i < vs.length →
      (¬((start + (i : Int) = 10704 ∨ start + (i : Int) = 10705 ∨
            start + (i : Int) = 10706) ∧ i + 4 < vs.length) →
        (fc16_write s start vs).registers (start + (i : Int)) = vs.getD i 0) ∧
      (((start + (i : Int) = 10704 ∨ start + (i : Int) = 10705 ∨
            start + (i : Int) = 10706) ∧ i + 4 < vs.length) →
        (fc16_write s start vs).registers (start + (i : Int)) = vs.getD (i + 4) 0) ∧
      ((start + (i : Int) = 10708 ∨ start + (i : Int) = 10709 ∨
            start + (i : Int) = 10710) →
        (fc16_write s start vs).registers (start + (i : Int) - 4) = vs.getD i 0)) := by
  constructor
  · intro s addr val h0 h1
    have hreg := (reg_write_with_mirror_spec s addr val).1
    have haddr : (fc6_write s addr val).registers addr = val := by
      rw [fc6_write, hreg]
      simp
    refine ⟨?_, rfl, ?_⟩
    · rw [fc3_payload_one, haddr, Int.emod_eq_of_lt h0 h1]
    · intro hsrc
      rw [fc6_write, hreg]
      simp only []
      rw [if_pos (Or.inr
        ⟨(by omega : addr = 10708 ∨ addr = 10710 ∨ addr = 10709), trivial⟩)]
  · intro s start vs i hi
    refine ⟨?_, ?_, ?_⟩
    · intro hnot
      rw [fc16_registers]
      rw [if_neg (by
        intro hc
        exact hnot ⟨hc.1, by omega⟩)]
      rw [if_pos (by omega)]
      congr 1
      omega
    · intro hc
      rw [fc16_registers]
      rw [if_pos ⟨hc.1, by omega⟩]
      congr 1
      omega
    · intro hsrc
      rw [fc16_registers]
      rw [if_pos (by omega)]
      congr 1
      omega

/-- C6 witness: the FC6 part at address 10708 with value 777 (mirrored into
10704), and the FC16 part at index 0 of the span `10704..10708`. -/
theorem claim_C6_witness :
    ((0 : Int) ≤ 777 ∧ (777 : Int) < 65536 ∧
      fc3_payload (fc6_write init_state 10708 777) 10708 1
          = [2, (777 : Int).toNat / 256, (777 : Int).toNat % 256] ∧
      (fc6_write init_state 10708 777).registers (10708 - 4) = 777) ∧
    ((0 : Nat) < ([1, 2, 3, 4, 5] : List Int).length ∧
      (fc16_write init_state 10704 [1, 2, 3, 4, 5]).registers (10704 + ((0 : Nat) : Int))
        = ([1, 2, 3, 4, 5] : List Int).getD (0 + 4) 0) := by
  have h1 := claim_C6.1 init_state 10708 777 (by norm_num) (by norm_num)
  have h2 := claim_C6.2 init_state 10704 [1, 2, 3, 4, 5] 0 (by norm_num)
  refine ⟨⟨by norm_num, by norm_num, h1.1, h1.2.2 (by norm_num)⟩,
    ⟨by norm_num, h2.2.1 (by norm_num)⟩⟩
